import Mathlib

/-!
Verification of the cross-ecosystem dependency-installation orchestrator of
`ci/build_test.py`.

The Python source is shallowly embedded:
* pure helpers (`is_supported_platform`, `is_supported_python`, requirement
  parsing, the MinGW candidate-name generation) become Lean functions;
* the stateful `install_requirements` loop becomes explicit state passing over
  a `St` record; each `subprocess.run` consumes the next response from a fixed
  oracle `w : Nat → ProcResult` (indexed by invocation count) and is logged in
  an event trace, and every `installed_packages` extension is logged as a
  `record` event;
* the JSON payload of a conda search (`json.loads(process.stdout)` followed by
  the lookup `output[require.name]`) is carried as the already-parsed field
  `condaFiles` of the response, a list of (build, url) pairs.

All character-level work is done on `List Char` (via `String.toList` /
`List.asString`) so that every definition reduces inside the kernel.
-/

/-- Character-level test that a string starts with the given pattern
(models Python `str.startswith`). -/
def strStarts (s pat : String) : Bool :=
  pat.toList.isPrefixOf s.toList

/-- Character-level drop of the first `n` characters (models Python `s[n:]`). -/
def strDrop (s : String) (n : Nat) : String :=
  (s.toList.drop n).asString

/-- Split a character list on a separator character, keeping empty pieces,
exactly like Python `str.split(sep)` for a one-character separator. -/
def splitOnChar (sep : Char) : List Char → List (List Char)
  | [] => [[]]
  | c :: rest =>
    if c = sep then [] :: splitOnChar sep rest
    else
      match splitOnChar sep rest with
      | g :: gs => (c :: g) :: gs
      | [] => [[c]]

/-- String-level wrapper of `splitOnChar` (models Python `str.split(sep)`). -/
def strSplit (s : String) (sep : Char) : List String :=
  (splitOnChar sep s.toList).map List.asString

/-- Models Python `str.lower()` (ASCII range, which covers package names). -/
def strLower (s : String) : String :=
  (s.toList.map Char.toLower).asString

/-- Models Python `str.islower()`: at least one cased character and no cased
character is uppercase (ASCII range). -/
def pyIsLower (s : String) : Bool :=
  s.toList.any (fun c => c.isLower || c.isUpper) && s.toList.all (fun c => !c.isUpper)

/-- Models Python `str.replace(a, b)` for one-character patterns. -/
def strReplaceChar (s : String) (a b : Char) : String :=
  (s.toList.map (fun c => if c = a then b else c)).asString

/-- Models Python `sub in s` (substring containment). -/
def strContains (s sub : String) : Bool :=
  s.toList.tails.any (fun t => sub.toList.isPrefixOf t)

/-- Models Python `s.endswith(c)` as used on the last character (`s[-1] == "/"`). -/
def strEndsWith (s suf : String) : Bool :=
  suf.toList.isSuffixOf s.toList

/-- Models Python `s[:-1]`. -/
def strDropLast (s : String) : String :=
  s.toList.dropLast.asString

/-- Models Python `str.contains` for a single character (`"_" in package`). -/
def strHasChar (s : String) (c : Char) : Bool :=
  s.toList.contains c

/-- The platform-tag universe of `is_supported_platform`
(`platform_support = {"linux", "macos", "mingw", "windows"}`). -/
def platform_support_universe : List String :=
  ["linux", "macos", "mingw", "windows"]

/-- Embedding of `is_supported_platform` (build_test.py lines 75-98) on an
already-split constraint list; `none` is Python `None`.  Python's sets are
represented by lists, with `in` as list membership (duplicates are irrelevant
to membership). -/
def is_supported_platform (platform : Option (List String)) (platform_in_use : String) : Bool :=
  match platform with
  | none => true
  | some platform =>
    -- `if not platform: return True`
    if platform.isEmpty then true
    else
      let platform_yes := platform.filter (fun plat => !strStarts plat "!")
      -- `if platform_yes: platform_support = platform_yes`
      let platform_support :=
        if !platform_yes.isEmpty then platform_yes else platform_support_universe
      let platform_not := (platform.filter (fun plat => strStarts plat "!")).map (fun plat => strDrop plat 1)
      -- `if platform_not: platform_support -= platform_not`
      let platform_support :=
        if !platform_not.isEmpty then
          platform_support.filter (fun plat => !platform_not.contains plat)
        else platform_support
      platform_support.contains platform_in_use

/-- Embedding of `is_supported_platform` on the raw string form: a string
constraint is first split on `","` (line 78-79). -/
def is_supported_platform_str (platform : Option String) (platform_in_use : String) : Bool :=
  match platform with
  | none => true
  | some p => is_supported_platform (some (strSplit p ',')) platform_in_use

/-- Positional value of a digit string (the denotation computed by Python
`int(num)` on a digit-only string). -/
def digitsVal (cs : List Char) : Nat :=
  cs.foldl (fun acc c => acc * 10 + (c.toNat - 48)) 0

/-- Python lexicographic `<` on integer tuples of possibly different lengths
(a strict prefix is smaller). -/
def pyTupleLt : List Nat → List Nat → Bool
  | _, [] => false
  | [], _ :: _ => true
  | a :: as, b :: bs =>
    if a < b then true
    else if b < a then false
    else pyTupleLt as bs

/-- Result of Python `eval` on `f"{a}{op}{b}"` where `a`, `b` are integer
tuples and `op` is a comparison operator; `none` models the `eval` raising on
a string that is not one of the comparison operators. -/
def pyEvalCmp (op : String) (a b : List Nat) : Option Bool :=
  if op = "<" then some (pyTupleLt a b)
  else if op = "<=" then some (pyTupleLt a b || a == b)
  else if op = ">" then some (pyTupleLt b a)
  else if op = ">=" then some (pyTupleLt b a || a == b)
  else if op = "==" then some (a == b)
  else if op = "!=" then some (!(a == b))
  else none

/-- Embedding of `is_supported_python` (build_test.py lines 101-107) on
constraints of the shape `<op><major>[.<minor>[.<patch>]]`: the regular
expression `RE_PYTHON_VERSION` splits such a constraint into the operator text
preceding the first digit and the dot-separated numeric groups (empty groups
are discarded by `if num`); the resulting comparison string is evaluated.
`current` is `sys.version_info[:3]`. -/
def is_supported_python (current : Nat × Nat × Nat) (python_version : String) : Option Bool :=
  let cs := python_version.toList
  let operator := (cs.takeWhile (fun c => !c.isDigit)).asString
  let groups := splitOnChar '.' (cs.dropWhile (fun c => !c.isDigit))
  let python_version_required := (groups.filter (fun g => !g.isEmpty)).map digitsVal
  pyEvalCmp operator [current.1, current.2.1, current.2.2] python_version_required

/-- A parsed requirement directive: the flag fields and base package
expression produced by the token loop of `install_requirements`
(build_test.py lines 131-165).  `upgrade` is initialised from the
process-wide `PIP_UPGRADE` toggle. -/
structure Directive where
  alias_for_conda : Option String := none
  alias_for_mingw : Option String := none
  no_deps : Bool := false
  platform : Option String := none
  python_version : Option String := none
  only_binary : Bool := false
  pre_release : Bool := false
  prefer_binary : Bool := false
  require : Option String := none
  upgrade : Bool := false
deriving DecidableEq

/-- Classification of one space-separated sub-token, following the `elif`
chain of lines 144-165 in order. -/
inductive TokKind where
  | conda (v : String)
  | mingw (v : String)
  | noDeps
  | platform (v : String)
  | pythonVersion (v : String)
  | onlyBinary
  | pre
  | preferBinary
  | upgrade
  | package (v : String)
  | empty
deriving DecidableEq

/-- The `elif` chain of lines 144-165: each branch condition in source order.
`--conda=`/`--mingw=` keep everything after the first `=`
(`split("=", 1)[1]`); `--platform=` keeps the text between the first and
second `=` (`split("=")[1]`); `--python-version` keeps the remaining suffix. -/
def classifyToken (t : String) : TokKind :=
  if strStarts t "--conda=" then .conda (strDrop t 8)
  else if strStarts t "--mingw=" then .mingw (strDrop t 8)
  else if t = "--no-deps" then .noDeps
  else if strStarts t "--platform=" then .platform (((strSplit t '=').drop 1).headD "")
  else if strStarts t "--python-version" then .pythonVersion (strDrop t 16)
  else if t = "--only-binary" then .onlyBinary
  else if t = "--pre" then .pre
  else if t = "--prefer-binary" then .preferBinary
  else if t = "--upgrade" then .upgrade
  else if t ≠ "" then .package t
  else .empty

/-- Effect of one sub-token on the directive being built (lines 144-165). -/
def parseToken (d : Directive) (t : String) : Directive :=
  match classifyToken t with
  | .conda v => { d with alias_for_conda := some v }
  | .mingw v => { d with alias_for_mingw := some v }
  | .noDeps => { d with no_deps := true }
  | .platform v => { d with platform := some v }
  | .pythonVersion v => { d with python_version := some v }
  | .onlyBinary => { d with only_binary := true }
  | .pre => { d with pre_release := true }
  | .preferBinary => { d with prefer_binary := true }
  | .upgrade => { d with upgrade := true }
  | .package v => { d with require := some v }
  | .empty => d

/-- Initial directive state of one loop iteration (lines 133-142). -/
def initDirective (pip_upgrade : Bool) : Directive :=
  { upgrade := pip_upgrade }

/-- Parse a list of sub-tokens left to right (the `for req_data in
req.split(" ")` loop). -/
def parseTokens (pip_upgrade : Bool) (toks : List String) : Directive :=
  toks.foldl parseToken (initDirective pip_upgrade)

/-- Parse one requirement token string (`req.split(" ")` then the token
loop). -/
def parseReq (pip_upgrade : Bool) (req : String) : Directive :=
  parseTokens pip_upgrade (strSplit req ' ')

/-- Sanity checks of the pure embedding on concrete inputs. -/
theorem sanity_pure_defs :
    strSplit "a b" ' ' = ["a", "b"] ∧
    parseReq false "baz" = { require := some "baz" } ∧
    (parseReq false "b --no-deps").no_deps = true ∧
    is_supported_platform (some ["!linux"]) "macos" = true ∧
    is_supported_platform (some ["linux"]) "macos" = false ∧
    is_supported_python (3, 9, 0) ">=3.10" = some false ∧
    is_supported_python (3, 11, 2) ">=3.10" = some true := by
  refine ⟨by decide, by decide, by decide, by decide, by decide, by decide, by decide⟩

/-- Outcome of one external invocation (`subprocess.run`): the exit status,
the captured standard output, and — for a conda search with `--json` — the
already-parsed payload `output[require.name]` as (build, url) pairs. -/
structure ProcResult where
  returncode : Int
  stdout : String
  condaFiles : List (String × String)
deriving DecidableEq

/-- One step of the observable behaviour of a run: an external invocation
with its outcome, or the recording of one identifier into the
installed-packages report. -/
inductive Event where
  | run : List String → ProcResult → Event
  | record : String → Event
deriving DecidableEq

/-- Mutable state of one `install_requirements` call: number of external
invocations made so far (the oracle index), the event trace, and the three
accumulator lists of the source. -/
structure St where
  idx : Nat
  events : List Event
  installed_packages : List String
  conda_pkgs : List String
  pip_pkgs : List String
deriving DecidableEq

/-- The process-wide environment context (module constants of build_test.py):
interpreter path, conda executable, MinGW package namespace, detected
environment kind, release channel, and toggles. `version_in_use` is
`sys.version_info[:3]`, `py_version_nodot` is `get_config_var("py_version_nodot")`,
and `platform_in_use` is the tag computed at lines 82-90. -/
structure Ctx where
  executable : String
  conda_exe : String
  prefix_dir : String
  mingwPkgNamespace : String
  is_conda : Bool
  is_mingw : Bool
  is_final_version : Bool
  pip_upgrade : Bool
  pipenv_active : Bool
  platform_in_use : String
  version_in_use : Nat × Nat × Nat
  py_version_nodot : String

/-- `pip_install = [sys.executable, "-m", "pip", "install"]` (line 120). -/
def pip_install (ctx : Ctx) : List String :=
  [ctx.executable, "-m", "pip", "install"]

/-- `pipenv_install = ["pipenv", "install"]` (line 121). -/
def pipenv_install : List String :=
  ["pipenv", "install"]

/-- `pacman_args` (line 122). -/
def pacman_args : List String :=
  ["pacman", "--noconfirm", "--needed", "-S"]

/-- `pacman_search` (line 123). -/
def pacman_search : List String :=
  ["pacman", "--noconfirm", "-Ss"]

/-- `conda_install` (lines 124-125). -/
def conda_install (ctx : Ctx) : List String :=
  [ctx.conda_exe, "install", "--prefix", ctx.prefix_dir, "-y", "-q", "--no-channel-priority", "-S"]

/-- `conda_search` (line 126). -/
def conda_search (ctx : Ctx) : List String :=
  [ctx.conda_exe, "search", "--override-channels"]

/-- Run one external command: consume the next oracle response and log the
invocation. -/
def runCmd (w : Nat → ProcResult) (cmd : List String) (s : St) : ProcResult × St :=
  let r := w s.idx
  (r, { s with idx := s.idx + 1, events := s.events ++ [Event.run cmd r] })

/-- `installed_packages.extend(xs)`, logged as `record` events. -/
def recordInstalled (s : St) (xs : List String) : St :=
  { s with
    installed_packages := s.installed_packages ++ xs,
    events := s.events ++ xs.map Event.record }

/-- `RE_CONDA_BUILD_PYVER.search(build)` then `group(2)`: the digit run after
the first occurrence of `"py"`, if any. -/
def pyverScan : List Char → Option String
  | [] => none
  | c :: rest =>
    if c = 'p' then
      match rest with
      | 'y' :: rest2 => some ((rest2.takeWhile Char.isDigit).asString)
      | _ => pyverScan rest
    else pyverScan rest

/-- First file of the conda search payload whose build string matches the
interpreter version (`for file in output[...]` loop, lines 197-202): returns
its url. -/
def findCondaUrl (pyver : String) : List (String × String) → Option String
  | [] => none
  | (build, url) :: rest =>
    if pyverScan build.toList = some pyver then some url
    else findCondaUrl pyver rest

/-- The `for extra in extra_index_url` search loop of the conda branch
(lines 180-202): each index URL is searched; a successful search whose
payload contains a matching build overwrites `args` with that file's url. -/
def condaSearchFold (ctx : Ctx) (w : Nat → ProcResult) (name : String) :
    List String → List String → St → List String × St
  | [], args, s => (args, s)
  | extra :: rest, args, s =>
    let packages_url := if strEndsWith extra "/" then strDropLast extra else extra
    let args2 := ["-c", packages_url ++ "/conda", name, "--json"]
    let pr := runCmd w (conda_search ctx ++ args2) s
    let args :=
      if pr.1.returncode = 0 then
        match findCondaUrl ctx.py_version_nodot pr.1.condaFiles with
        | some url => [url]
        | none => args
      else args
    condaSearchFold ctx w name rest args pr.2

/-- Name used on the conda backend (lines 173-177): an explicit alias
replaces the base package, the empty alias skips the directive, and a
directive without a base package is skipped. -/
def conda_require (d : Directive) : Option String :=
  match d.alias_for_conda with
  | some a => if a = "" then none else some a
  | none => d.require

/-- Name used on the MinGW backend (lines 221-226), same skip rules. -/
def mingw_require (d : Directive) : Option String :=
  match d.alias_for_mingw with
  | some a => if a = "" then none else some a
  | none => d.require

/-- The conda branch of the directive loop (lines 170-210): search the extra
index URLs, install a found file url directly (recording the url on success),
otherwise defer the name to the end-of-run conda batch. -/
def condaStep (ctx : Ctx) (w : Nat → ProcResult) (extras : List String)
    (d : Directive) (s : St) : St :=
  match conda_require d with
  | none => s
  | some name =>
    let pr := condaSearchFold ctx w name extras [] s
    let args := pr.1
    let s := pr.2
    if args ≠ [] then
      let pr2 := runCmd w (conda_install ctx ++ args) s
      if pr2.1.returncode = 0 then recordInstalled pr2.2 args else pr2.2
    else
      { s with conda_pkgs := s.conda_pkgs ++ [name] }

/-- The ordered candidate-name list of the MinGW branch (lines 228-237):
bridge-namespaced form first, then the raw name; lowercased variants when the
name is not `islower()`; hyphenated variants when it contains an underscore,
else underscored variants when it contains a hyphen. -/
def mingw_candidates (package : String) : List String :=
  let packages := ["python-" ++ package, package]
  let packages :=
    if !pyIsLower package then packages ++ packages.map strLower else packages
  if strHasChar package '_' then
    packages ++ packages.map (fun p => strReplaceChar p '_' '-')
  else if strHasChar package '-' then
    packages ++ packages.map (fun p => strReplaceChar p '-' '_')
  else packages

/-- The `for package_name in packages` search/install loop of the MinGW
branch (lines 238-254): exit status 1 of the search means "no such name";
a search reporting `"installed"` records the name without installing;
otherwise an install is attempted and recorded on success. -/
def mingwLoop (ctx : Ctx) (w : Nat → ProcResult) : List String → St → Bool × St
  | [], s => (false, s)
  | package_name :: rest, s =>
    let package := ctx.mingwPkgNamespace ++ "-" ++ package_name
    let pr := runCmd w (pacman_search ++ [package]) s
    if pr.1.returncode = 1 then mingwLoop ctx w rest pr.2
    else if pr.1.returncode = 0 && strContains pr.1.stdout "installed" then
      (true, recordInstalled pr.2 [package])
    else
      let pr2 := runCmd w (pacman_args ++ [package]) pr.2
      if pr2.1.returncode = 0 then (true, recordInstalled pr2.2 [package])
      else mingwLoop ctx w rest pr2.2

/-- Per-directive pip arguments (lines 260-286).  The `only_binary` branch's
`if 0:` arm is dead code in the source; the live arm appends
`--only-binary=<name>`. -/
def pipArgsFlags (ctx : Ctx) (d : Directive) (name : String) : List String :=
  (if d.no_deps && !ctx.pipenv_active then ["--no-deps"] else []) ++
  (if d.only_binary && !ctx.pipenv_active then ["--only-binary=" ++ name] else []) ++
  (if d.pre_release then ["--pre"] else []) ++
  (if d.prefer_binary && !ctx.pipenv_active then ["--prefer-binary"] else []) ++
  (if d.upgrade then ["--upgrade"] else [])

/-- The full per-directive install command (lines 287-299): under pipenv the
first extra index URL is passed as `--index`; otherwise every extra index URL
and find-links entry is appended (`args += [...] for ...` is a no-op on an
absent list). -/
def pipFullCmd (ctx : Ctx) (extras links : List String) (d : Directive) (name : String) :
    List String :=
  let args := pipArgsFlags ctx d name
  if ctx.pipenv_active then
    let args := args ++ (if extras ≠ [] then ["--index=" ++ extras.headD ""] else [])
    pipenv_install ++ args ++ [name]
  else
    let args := args ++ extras.map (fun url => "--extra-index-url=" ++ url)
    let args := args ++ links.map (fun l => "--find-links=" ++ l)
    pip_install ctx ++ args ++ [name]

/-- The pip section of the directive loop (lines 257-313): a directive with
per-package arguments runs as its own command, retrying once with `--pre`
when the interpreter is a preview release and the directive did not already
ask for pre-releases; a directive with no per-package arguments is deferred
to the end-of-run batch. -/
def pipStep (ctx : Ctx) (w : Nat → ProcResult) (extras links : List String)
    (d : Directive) (s : St) : St :=
  match d.require with
  | none => s
  | some name =>
    if pipArgsFlags ctx d name ≠ [] then
      let full := pipFullCmd ctx extras links d name
      let pr := runCmd w full s
      if pr.1.returncode = 0 then recordInstalled pr.2 [name]
      else if !ctx.is_final_version && !d.pre_release then
        let pr2 := runCmd w (full ++ ["--pre"]) pr.2
        if pr2.1.returncode = 0 then recordInstalled pr2.2 [name] else pr2.2
      else pr.2
    else
      { s with pip_pkgs := s.pip_pkgs ++ [name] }

/-- The python-version eligibility test of line 168 (`if python_version and
not is_supported_python(...): continue`).  An `eval` failure on a malformed
constraint raises in the source, aborting the whole run; it is modelled as
skipping the directive, which no claim distinguishes from an abort (nothing
further is installed or recorded for the directive either way). -/
def checkPython (ctx : Ctx) (d : Directive) : Bool :=
  match d.python_version with
  | none => true
  | some pv =>
    if pv = "" then true
    else
      match is_supported_python ctx.version_in_use pv with
      | some b => b
      | none => false

/-- One iteration of the directive loop (lines 131-313): parse, filter on
platform and python version, then dispatch to the conda branch, the MinGW
branch (falling through to pip when nothing was installed), or the pip
section. -/
def processReq (ctx : Ctx) (w : Nat → ProcResult) (extras links : List String)
    (req : String) (s : St) : St :=
  let d := parseReq ctx.pip_upgrade req
  if is_supported_platform_str d.platform ctx.platform_in_use then
    if checkPython ctx d then
      if ctx.is_conda then condaStep ctx w extras d s
      else if ctx.is_mingw then
        match mingw_require d with
        | none => s
        | some name =>
          let pr := mingwLoop ctx w (mingw_candidates name) s
          if pr.1 then pr.2
          else pipStep ctx w extras links { d with require := some name } pr.2
      else pipStep ctx w extras links d s
    else s
  else s

/-- The single command of the end-of-run pip batch (lines 315-325): extra
index URLs and find-links first, then every deferred package; under pipenv
the extra arguments are ignored. -/
def pip_batch_cmd (ctx : Ctx) (extras links pkgs : List String) : List String :=
  let args := if extras ≠ [] then extras.map (fun e => "--extra-index-url=" ++ e) else []
  let args := if links ≠ [] then links.map (fun l => "--find-links=" ++ l) ++ args else args
  if ctx.pipenv_active then pipenv_install ++ pkgs
  else pip_install ctx ++ args ++ pkgs

/-- The end-of-run pip batch (lines 314-329): one command for all deferred
no-flag packages. -/
def pipBatch (ctx : Ctx) (w : Nat → ProcResult) (extras links : List String) (s : St) : St :=
  if s.pip_pkgs ≠ [] then
    let pr := runCmd w (pip_batch_cmd ctx extras links s.pip_pkgs) s
    if pr.1.returncode = 0 then recordInstalled pr.2 s.pip_pkgs else pr.2
  else s

/-- The end-of-run conda batch (lines 330-337): one `conda install` over the
conda-forge channel for all deferred names; no fallback to pip on error. -/
def condaBatch (ctx : Ctx) (w : Nat → ProcResult) (s : St) : St :=
  if s.conda_pkgs ≠ [] then
    let pr := runCmd w (conda_install ctx ++ ["--override-channels", "-c", "conda-forge"] ++ s.conda_pkgs) s
    if pr.1.returncode = 0 then recordInstalled pr.2 s.conda_pkgs else pr.2
  else s

/-- Initial state of a run. -/
def initSt : St :=
  { idx := 0, events := [], installed_packages := [], conda_pkgs := [], pip_pkgs := [] }

/-- Embedding of `install_requirements` (lines 110-338) on an already
normalised requirement list (the source turns a comma-separated string or a
list into a set; processing order over the set is represented by the list
order, which no claim depends on). -/
def install_requirements (ctx : Ctx) (w : Nat → ProcResult) (requires : List String)
    (extras links : List String) : St :=
  condaBatch ctx w
    (pipBatch ctx w extras links
      (requires.foldl (fun s req => processReq ctx w extras links req s) initSt))

/-- A plain non-conda, non-MinGW, non-pipenv context on a preview interpreter. -/
def ctxStd : Ctx :=
  { executable := "python", conda_exe := "conda", prefix_dir := "/usr",
    mingwPkgNamespace := "mingw-w64-x86_64", is_conda := false, is_mingw := false,
    is_final_version := false, pip_upgrade := false, pipenv_active := false,
    platform_in_use := "linux", version_in_use := (3, 14, 0), py_version_nodot := "314" }

/-- An oracle whose first response fails and whose later responses succeed. -/
def wFailThenOk : Nat → ProcResult :=
  fun i => if i = 0 then ⟨1, "", []⟩ else ⟨0, "", []⟩

/-- Sanity check of the run model: one failing batched install of `"baz"`. -/
theorem sanity_run_model :
    install_requirements ctxStd wFailThenOk ["baz"] [] [] =
      { idx := 1,
        events := [Event.run ["python", "-m", "pip", "install", "baz"] ⟨1, "", []⟩],
        installed_packages := [], conda_pkgs := [], pip_pkgs := ["baz"] } := by
  decide

/-- C1: on the platform-tag universe produced by the classifier, the
eligibility check is: always true for an absent or empty constraint; with
only-deny entries, true iff the current tag is not among the denied tags;
with only-allow entries, true iff the current tag is among the allowed tags;
with both, true iff the current tag is in the allowed set minus the denied
set. -/
theorem c1_platform_eligibility (ps : List String) (tag : String)
    (htag : tag ∈ platform_support_universe) :
    (is_supported_platform none tag = true) ∧
    (is_supported_platform (some []) tag = true) ∧
    ((∀ p ∈ ps, strStarts p "!" = true) →
      (is_supported_platform (some ps) tag = true ↔ ∀ p ∈ ps, strDrop p 1 ≠ tag)) ∧
    ((∀ p ∈ ps, strStarts p "!" = false) → ps ≠ [] →
      (is_supported_platform (some ps) tag = true ↔ tag ∈ ps)) ∧
    (ps.filter (fun p => !strStarts p "!") ≠ [] →
      (is_supported_platform (some ps) tag = true ↔
        (tag ∈ ps.filter (fun p => !strStarts p "!") ∧
         tag ∉ (ps.filter (fun p => strStarts p "!")).map (fun p => strDrop p 1)))) := by
  refine ⟨rfl, rfl, ?_, ?_, ?_⟩
  · intro hdeny
    rcases eq_or_ne ps [] with h | h
    · subst h; simp [is_supported_platform]
    · have hyes : ps.filter (fun plat => !strStarts plat "!") = [] := by
        rw [List.filter_eq_nil_iff]; intro a ha; simp [hdeny a ha]
      have hnot : ps.filter (fun plat => strStarts plat "!") = ps :=
        List.filter_eq_self.mpr hdeny
      have hemp : ps.isEmpty = false := by simp [List.isEmpty_iff, h]
      have hemp2 : (ps.map (fun plat => strDrop plat 1)).isEmpty = false := by
        simp [List.isEmpty_iff, h]
      simp only [is_supported_platform, hyes, hnot, hemp, List.isEmpty_nil, hemp2,
        Bool.not_false, Bool.not_true, if_false, if_true]
      simp [List.mem_filter, htag]
  · intro hallow hne
    have hyes : ps.filter (fun plat => !strStarts plat "!") = ps := by
      rw [List.filter_eq_self]; intro a ha; simp [hallow a ha]
    have hnot : ps.filter (fun plat => strStarts plat "!") = [] := by
      rw [List.filter_eq_nil_iff]; intro a ha; simp [hallow a ha]
    have hemp : ps.isEmpty = false := by simp [List.isEmpty_iff, hne]
    simp only [is_supported_platform, hyes, hnot, hemp, List.map_nil, List.isEmpty_nil,
      Bool.not_false, Bool.not_true, if_false, if_true]
    simp
  · intro hne
    have hemp : ps.isEmpty = false := by
      cases ps with
      | nil => simp at hne
      | cons a l => rfl
    have hyemp : (ps.filter (fun plat => !strStarts plat "!")).isEmpty = false := by
      simp [List.isEmpty_iff, hne]
    simp only [is_supported_platform, hemp, hyemp, Bool.not_false, if_false, if_true]
    by_cases hd : (ps.filter (fun plat => strStarts plat "!")).map (fun plat => strDrop plat 1) = []
    · rw [hd]; simp [List.mem_filter, hd]
    · have hdem : ((ps.filter (fun plat => strStarts plat "!")).map (fun plat => strDrop plat 1)).isEmpty = false := by
        simp [List.isEmpty_iff, hd]
      simp only [hdem, Bool.not_false, if_true]
      simp [List.mem_filter]
      tauto

/-- Witness for `c1_platform_eligibility` at a concrete deny-only constraint. -/
theorem c1_platform_eligibility_witness :
    is_supported_platform (some ["!linux"]) "macos" = true ↔
      ∀ p ∈ ["!linux"], strDrop p 1 ≠ "macos" :=
  (c1_platform_eligibility ["!linux"] "macos" (by decide)).2.2.1 (by decide)

/-- `String.toList` distributes over append. -/
theorem strToList_append (a b : String) : (a ++ b).toList = a.toList ++ b.toList :=
  rfl

/-- Round trip between `String.toList` and `List.asString`. -/
theorem asString_toList (s : String) : s.toList.asString = s := by
  cases s
  rfl

/-- `takeWhile` passes over a block on which the predicate holds. -/
theorem takeWhile_all_append {α} (p : α → Bool) (l1 l2 : List α)
    (h : ∀ a ∈ l1, p a = true) :
    (l1 ++ l2).takeWhile p = l1 ++ l2.takeWhile p := by
  induction l1 with
  | nil => rfl
  | cons a l ih =>
    have ha : p a = true := h a (by simp)
    simp only [List.cons_append, List.takeWhile_cons, ha, if_true]
    rw [ih (fun x hx => h x (by simp [hx]))]

/-- `dropWhile` consumes a block on which the predicate holds. -/
theorem dropWhile_all_append {α} (p : α → Bool) (l1 l2 : List α)
    (h : ∀ a ∈ l1, p a = true) :
    (l1 ++ l2).dropWhile p = l2.dropWhile p := by
  induction l1 with
  | nil => rfl
  | cons a l ih =>
    have ha : p a = true := h a (by simp)
    simp only [List.cons_append, List.dropWhile_cons, ha, if_true]
    exact ih (fun x hx => h x (by simp [hx]))

/-- A character list without the separator splits into one group. -/
theorem splitOnChar_no_sep (sep : Char) (cs : List Char) (h : ∀ c ∈ cs, c ≠ sep) :
    splitOnChar sep cs = [cs] := by
  induction cs with
  | nil => rfl
  | cons c rest ih =>
    have hc : c ≠ sep := h c (by simp)
    simp only [splitOnChar, if_neg hc]
    rw [ih (fun x hx => h x (by simp [hx]))]

/-- Splitting a list that starts with a separator-free group followed by the
separator peels off exactly that group. -/
theorem splitOnChar_sep_append (sep : Char) (cs rest : List Char)
    (h : ∀ c ∈ cs, c ≠ sep) :
    splitOnChar sep (cs ++ sep :: rest) = cs :: splitOnChar sep rest := by
  induction cs with
  | nil => simp [splitOnChar]
  | cons c cs' ih =>
    have hc : c ≠ sep := h c (by simp)
    simp only [List.cons_append, splitOnChar, if_neg hc, List.append_eq]
    rw [ih (fun x hx => h x (by simp [hx]))]

/-- `pyTupleLt` is the standard lexicographic strict order on integer lists
(`List.Lex`), the order Python uses to compare tuples. -/
theorem pyTupleLt_iff_lex : ∀ a b : List Nat, pyTupleLt a b = true ↔ List.Lex (· < ·) a b := by
  intro a
  induction a with
  | nil =>
    intro b
    cases b with
    | nil =>
      simp only [pyTupleLt]
      constructor
      · intro h
        exact absurd h (by simp)
      · intro h
        cases h
    | cons y ys =>
      simp only [pyTupleLt]
      constructor
      · intro _
        exact List.Lex.nil
      · intro _
        trivial
  | cons x xs ih =>
    intro b
    cases b with
    | nil =>
      simp only [pyTupleLt]
      constructor
      · intro h
        exact absurd h (by simp)
      · intro h
        cases h
    | cons y ys =>
      simp only [pyTupleLt]
      by_cases h1 : x < y
      · simp only [if_pos h1]
        constructor
        · intro _
          exact List.Lex.rel h1
        · intro _
          trivial
      · by_cases h2 : y < x
        · simp only [if_neg h1, if_pos h2]
          constructor
          · intro h
            exact absurd h (by simp)
          · intro hlex
            cases hlex with
            | cons h => exact absurd h2 (lt_irrefl x)
            | rel h => exact absurd h h1
        · have hxy : x = y := le_antisymm (not_lt.mp h2) (not_lt.mp h1)
          subst hxy
          simp only [if_neg h1, if_neg h2]
          rw [ih ys]
          constructor
          · exact List.Lex.cons
          · intro hlex
            cases hlex with
            | cons h => exact h
            | rel h => exact absurd h h1

/-- Comparison of two integer tuples as the claim states it: the operator
applied under the standard tuple lexicographic order. -/
def c3_spec_cmp (op : String) (a b : List Nat) : Bool :=
  if op = "<" then decide (List.Lex (· < ·) a b)
  else if op = "<=" then decide (List.Lex (· < ·) a b ∨ a = b)
  else if op = ">" then decide (List.Lex (· < ·) b a)
  else if op = ">=" then decide (List.Lex (· < ·) b a ∨ a = b)
  else if op = "==" then decide (a = b)
  else if op = "!=" then decide (a ≠ b)
  else false

/-- A boolean equal in truth value to a decidable proposition is its
`decide`. -/
theorem bool_eq_decide {x : Bool} {p : Prop} [Decidable p] (h : x = true ↔ p) :
    x = decide p := by
  by_cases hp : p
  · exact (h.mpr hp).trans (decide_eq_true hp).symm
  · have hx : x ≠ true := fun hxt => hp (h.mp hxt)
    have hx2 : x = false := by
      cases x with
      | false => rfl
      | true => exact absurd rfl hx
    exact hx2.trans (decide_eq_false hp).symm

/-- On the six comparison operators, the Python `eval` of the comparison
string agrees with the spec-side lexicographic comparison. -/
theorem pyEvalCmp_eq_spec (op : String) (a b : List Nat)
    (hop : op ∈ ["<", "<=", ">", ">=", "==", "!="]) :
    pyEvalCmp op a b = some (c3_spec_cmp op a b) := by
  simp only [List.mem_cons, List.mem_singleton] at hop
  rcases hop with rfl | rfl | rfl | rfl | rfl | rfl | h
  · simp only [pyEvalCmp, c3_spec_cmp, String.reduceEq, reduceIte]
    exact congrArg some (bool_eq_decide (pyTupleLt_iff_lex a b))
  · simp only [pyEvalCmp, c3_spec_cmp, String.reduceEq, reduceIte]
    exact congrArg some (bool_eq_decide (by
      rw [Bool.or_eq_true, beq_iff_eq, pyTupleLt_iff_lex]))
  · simp only [pyEvalCmp, c3_spec_cmp, String.reduceEq, reduceIte]
    exact congrArg some (bool_eq_decide (pyTupleLt_iff_lex b a))
  · simp only [pyEvalCmp, c3_spec_cmp, String.reduceEq, reduceIte]
    exact congrArg some (bool_eq_decide (by
      rw [Bool.or_eq_true, beq_iff_eq, pyTupleLt_iff_lex]))
  · simp only [pyEvalCmp, c3_spec_cmp, String.reduceEq, reduceIte]
    exact congrArg some (bool_eq_decide (by rw [beq_iff_eq]))
  · simp only [pyEvalCmp, c3_spec_cmp, String.reduceEq, reduceIte]
    exact congrArg some (bool_eq_decide (by
      rw [Bool.not_eq_true', beq_eq_false_iff_ne]))
  · cases h

/-- Join character-list groups with a dot separator (the shape of the
numeric part of a version constraint). -/
def joinDots : List (List Char) → List Char
  | [] => []
  | [g] => g
  | g :: gs => g ++ '.' :: joinDots gs

/-- `joinDots` of a nonempty list starts with its first group. -/
theorem joinDots_cons (g : List Char) (gs : List (List Char)) :
    joinDots (g :: gs) = g ++ (if gs.isEmpty then [] else '.' :: joinDots gs) := by
  cases gs with
  | nil => simp [joinDots]
  | cons g2 gs2 => rfl

/-- Splitting the dot-joined groups recovers the groups, when no group
contains a dot. -/
theorem splitOnChar_joinDots (gl : List (List Char)) (hne : gl ≠ [])
    (h : ∀ g ∈ gl, ∀ c ∈ g, c ≠ '.') :
    splitOnChar '.' (joinDots gl) = gl := by
  induction gl with
  | nil => exact absurd rfl hne
  | cons g gs ih =>
    cases gs with
    | nil =>
      simp only [joinDots]
      exact splitOnChar_no_sep '.' g (h g (by simp))
    | cons g2 gs2 =>
      have hj : joinDots (g :: g2 :: gs2) = g ++ '.' :: joinDots (g2 :: gs2) := rfl
      rw [hj, splitOnChar_sep_append '.' g _ (h g (by simp))]
      rw [ih (by simp) (fun x hx => h x (by simp [hx]))]

/-- `List.asString` and `String.toList` are mutually inverse, list side. -/
theorem toList_asString (l : List Char) : l.asString.toList = l :=
  rfl

/-- The core parsing fact behind `is_supported_python`: on a constraint made
of a digit-free operator followed by dot-joined nonempty digit groups, the
function evaluates the operator on `sys.version_info[:3]` and the groups'
numeric values. -/
theorem is_supported_python_split (cur : Nat × Nat × Nat) (op : String)
    (gl : List (List Char))
    (hop : ∀ c ∈ op.toList, c.isDigit = false)
    (hne : gl ≠ [])
    (hg : ∀ g ∈ gl, g ≠ [] ∧ ∀ c ∈ g, c.isDigit = true) :
    is_supported_python cur (op ++ (joinDots gl).asString) =
      pyEvalCmp op [cur.1, cur.2.1, cur.2.2] (gl.map digitsVal) := by
  obtain ⟨g0, gs0, rfl⟩ : ∃ g0 gs0, gl = g0 :: gs0 := by
    cases gl with
    | nil => exact absurd rfl hne
    | cons a l => exact ⟨a, l, rfl⟩
  obtain ⟨c0, g0', rfl⟩ : ∃ c0 g0', g0 = c0 :: g0' := by
    obtain ⟨hne0, _⟩ := hg g0 (List.mem_cons_self g0 gs0)
    cases g0 with
    | nil => exact absurd rfl hne0
    | cons a l => exact ⟨a, l, rfl⟩
  have hc0 : c0.isDigit = true :=
    (hg (c0 :: g0') (List.mem_cons_self _ _)).2 c0 (List.mem_cons_self _ _)
  have hdots : ∀ g ∈ (c0 :: g0') :: gs0, ∀ c ∈ g, c ≠ '.' := by
    intro g hgmem c hc
    have : c.isDigit = true := (hg g hgmem).2 c hc
    intro hcdot
    rw [hcdot] at this
    exact absurd this (by decide)
  have hjoin : ∃ rest, joinDots ((c0 :: g0') :: gs0) = (c0 :: g0') ++ rest := by
    rw [joinDots_cons]
    exact ⟨_, rfl⟩
  obtain ⟨rest, hrest⟩ := hjoin
  have hlist : (op ++ (joinDots ((c0 :: g0') :: gs0)).asString).toList =
      op.toList ++ joinDots ((c0 :: g0') :: gs0) := by
    rw [strToList_append, toList_asString]
  have hopall : ∀ c ∈ op.toList, (!c.isDigit) = true := by
    intro c hc
    rw [hop c hc]
    rfl
  simp only [is_supported_python, hlist]
  rw [hrest]
  rw [takeWhile_all_append _ op.toList _ hopall, dropWhile_all_append _ op.toList _ hopall]
  have htw : ((c0 :: g0') ++ rest).takeWhile (fun c => !c.isDigit) = [] := by
    simp only [List.cons_append, List.takeWhile_cons, hc0]
    rfl
  have hdw : ((c0 :: g0') ++ rest).dropWhile (fun c => !c.isDigit) =
      (c0 :: g0') ++ rest := by
    simp only [List.cons_append, List.dropWhile_cons, hc0]
    rfl
  rw [htw, hdw, List.append_nil, asString_toList, ← hrest,
    splitOnChar_joinDots _ (by simp) hdots]
  have hfil : ((c0 :: g0') :: gs0).filter (fun g => !g.isEmpty) = (c0 :: g0') :: gs0 := by
    rw [List.filter_eq_self]
    intro g hgmem
    obtain ⟨hne0, _⟩ := hg g hgmem
    cases g with
    | nil => exact absurd rfl hne0
    | cons a l => rfl
  rw [hfil]

/-- C3: on a version constraint of the form `<op><major>.<minor>.<patch>`
(with `<op>` one of the six comparison operators and each component a digit
string), `is_supported_python` returns exactly the comparison of the current
interpreter 3-tuple against the parsed tuple under the standard lexicographic
tuple order; with minor or patch missing the comparison still evaluates, now
against the shorter parsed tuple. -/
theorem c3_python_version_eligibility (op smaj smin spat : String)
    (cur : Nat × Nat × Nat)
    (hop : op ∈ ["<", "<=", ">", ">=", "==", "!="])
    (hmaj : smaj.toList ≠ [] ∧ ∀ c ∈ smaj.toList, c.isDigit = true)
    (hmin : smin.toList ≠ [] ∧ ∀ c ∈ smin.toList, c.isDigit = true)
    (hpat : spat.toList ≠ [] ∧ ∀ c ∈ spat.toList, c.isDigit = true) :
    (is_supported_python cur (op ++ smaj ++ "." ++ smin ++ "." ++ spat) =
      some (c3_spec_cmp op [cur.1, cur.2.1, cur.2.2]
        [digitsVal smaj.toList, digitsVal smin.toList, digitsVal spat.toList])) ∧
    (is_supported_python cur (op ++ smaj ++ "." ++ smin) =
      some (c3_spec_cmp op [cur.1, cur.2.1, cur.2.2]
        [digitsVal smaj.toList, digitsVal smin.toList])) ∧
    (is_supported_python cur (op ++ smaj) =
      some (c3_spec_cmp op [cur.1, cur.2.1, cur.2.2] [digitsVal smaj.toList])) := by
  have hop2 : ∀ c ∈ op.toList, c.isDigit = false := by
    simp only [List.mem_cons, List.mem_singleton] at hop
    rcases hop with rfl | rfl | rfl | rfl | rfl | rfl | h
    · decide
    · decide
    · decide
    · decide
    · decide
    · decide
    · cases h
  refine ⟨?_, ?_, ?_⟩
  · have hstr : op ++ smaj ++ "." ++ smin ++ "." ++ spat =
        op ++ (joinDots [smaj.toList, smin.toList, spat.toList]).asString := by
      apply String.ext
      show (op ++ smaj ++ "." ++ smin ++ "." ++ spat).toList =
        (op ++ (joinDots [smaj.toList, smin.toList, spat.toList]).asString).toList
      simp only [strToList_append, toList_asString]
      have : joinDots [smaj.toList, smin.toList, spat.toList] =
          smaj.toList ++ '.' :: (smin.toList ++ '.' :: spat.toList) := rfl
      rw [this]
      have hdot : ("." : String).toList = ['.'] := rfl
      simp [List.append_assoc]
    rw [hstr, is_supported_python_split cur op _ hop2 (by simp)
      (by
        intro g hgmem
        simp only [List.mem_cons, List.mem_singleton] at hgmem
        rcases hgmem with rfl | rfl | rfl | h
        · exact hmaj
        · exact hmin
        · exact hpat
        · cases h)]
    rw [pyEvalCmp_eq_spec op _ _ hop]
    rfl
  · have hstr : op ++ smaj ++ "." ++ smin =
        op ++ (joinDots [smaj.toList, smin.toList]).asString := by
      apply String.ext
      show (op ++ smaj ++ "." ++ smin).toList =
        (op ++ (joinDots [smaj.toList, smin.toList]).asString).toList
      simp only [strToList_append, toList_asString]
      have : joinDots [smaj.toList, smin.toList] =
          smaj.toList ++ '.' :: smin.toList := rfl
      rw [this]
      simp [List.append_assoc]
    rw [hstr, is_supported_python_split cur op _ hop2 (by simp)
      (by
        intro g hgmem
        simp only [List.mem_cons, List.mem_singleton] at hgmem
        rcases hgmem with rfl | rfl | h
        · exact hmaj
        · exact hmin
        · cases h)]
    rw [pyEvalCmp_eq_spec op _ _ hop]
    rfl
  · have hstr : op ++ smaj = op ++ (joinDots [smaj.toList]).asString := by
      apply String.ext
      show (op ++ smaj).toList = (op ++ (joinDots [smaj.toList]).asString).toList
      simp only [strToList_append, toList_asString]
      rfl
    rw [hstr, is_supported_python_split cur op _ hop2 (by simp)
      (by
        intro g hgmem
        simp only [List.mem_singleton] at hgmem
        subst hgmem
        exact hmaj)]
    rw [pyEvalCmp_eq_spec op _ _ hop]
    rfl

/-- Witness for `c3_python_version_eligibility` at `">=3.10.0"` against
interpreter `(3, 9, 0)`. -/
theorem c3_python_version_eligibility_witness :
    is_supported_python (3, 9, 0) (">=" ++ "3" ++ "." ++ "10" ++ "." ++ "0") =
      some (c3_spec_cmp ">=" [3, 9, 0]
        [digitsVal "3".toList, digitsVal "10".toList, digitsVal "0".toList]) :=
  (c3_python_version_eligibility ">=" "3" "10" "0" (3, 9, 0) (by decide)
    (by decide) (by decide) (by decide)).1

/-- Value carried by a `--conda=` token, if any. -/
def condaVal (t : String) : Option String :=
  match classifyToken t with
  | .conda v => some v
  | _ => none

/-- Value carried by a `--mingw=` token, if any. -/
def mingwVal (t : String) : Option String :=
  match classifyToken t with
  | .mingw v => some v
  | _ => none

/-- Value carried by a `--platform=` token, if any. -/
def platformVal (t : String) : Option String :=
  match classifyToken t with
  | .platform v => some v
  | _ => none

/-- Value carried by a `--python-version` token, if any. -/
def pyVerVal (t : String) : Option String :=
  match classifyToken t with
  | .pythonVersion v => some v
  | _ => none

/-- The base-package reading of a token: a non-empty token matching no
recognized flag. -/
def pkgVal (t : String) : Option String :=
  match classifyToken t with
  | .package v => some v
  | _ => none

/-- Last-wins accumulation over an option. -/
theorem foldl_lastWins {α} (l : List α) :
    ∀ i1 i2 : Option α, l ≠ [] →
      l.foldl (fun _ v => some v) i1 = l.foldl (fun _ v => some v) i2 := by
  cases l with
  | nil => intro _ _ h; exact absurd rfl h
  | cons x xs => intro i1 i2 _; rfl

/-- Last-wins accumulation starting from `none` computes the last element. -/
theorem foldl_lastWins_none {α} : ∀ l : List α,
    l.foldl (fun _ v => some v) none = l.getLast? := by
  intro l
  induction l with
  | nil => rfl
  | cons x xs ih =>
    cases xs with
    | nil => rfl
    | cons y ys =>
      rw [List.getLast?_cons_cons]
      rw [← ih]
      rfl

/-- `no_deps` after the token loop: true iff it started true or some token is
`--no-deps`. -/
theorem foldl_no_deps (toks : List String) : ∀ d : Directive,
    (toks.foldl parseToken d).no_deps =
      (d.no_deps || toks.any (fun t => decide (classifyToken t = TokKind.noDeps))) := by
  induction toks with
  | nil => intro d; simp
  | cons t ts ih =>
    intro d
    rw [List.foldl_cons, ih, List.any_cons]
    cases h : classifyToken t <;> simp [parseToken, h, Bool.or_assoc]

/-- `only_binary` after the token loop. -/
theorem foldl_only_binary (toks : List String) : ∀ d : Directive,
    (toks.foldl parseToken d).only_binary =
      (d.only_binary || toks.any (fun t => decide (classifyToken t = TokKind.onlyBinary))) := by
  induction toks with
  | nil => intro d; simp
  | cons t ts ih =>
    intro d
    rw [List.foldl_cons, ih, List.any_cons]
    cases h : classifyToken t <;> simp [parseToken, h, Bool.or_assoc]

/-- `pre_release` after the token loop. -/
theorem foldl_pre_release (toks : List String) : ∀ d : Directive,
    (toks.foldl parseToken d).pre_release =
      (d.pre_release || toks.any (fun t => decide (classifyToken t = TokKind.pre))) := by
  induction toks with
  | nil => intro d; simp
  | cons t ts ih =>
    intro d
    rw [List.foldl_cons, ih, List.any_cons]
    cases h : classifyToken t <;> simp [parseToken, h, Bool.or_assoc]

/-- `prefer_binary` after the token loop. -/
theorem foldl_prefer_binary (toks : List String) : ∀ d : Directive,
    (toks.foldl parseToken d).prefer_binary =
      (d.prefer_binary || toks.any (fun t => decide (classifyToken t = TokKind.preferBinary))) := by
  induction toks with
  | nil => intro d; simp
  | cons t ts ih =>
    intro d
    rw [List.foldl_cons, ih, List.any_cons]
    cases h : classifyToken t <;> simp [parseToken, h, Bool.or_assoc]

/-- `upgrade` after the token loop. -/
theorem foldl_upgrade (toks : List String) : ∀ d : Directive,
    (toks.foldl parseToken d).upgrade =
      (d.upgrade || toks.any (fun t => decide (classifyToken t = TokKind.upgrade))) := by
  induction toks with
  | nil => intro d; simp
  | cons t ts ih =>
    intro d
    rw [List.foldl_cons, ih, List.any_cons]
    cases h : classifyToken t <;> simp [parseToken, h, Bool.or_assoc]

/-- `alias_for_conda` after the token loop: last `--conda=` value wins. -/
theorem foldl_alias_for_conda (toks : List String) : ∀ d : Directive,
    (toks.foldl parseToken d).alias_for_conda =
      (toks.filterMap condaVal).foldl (fun _ v => some v) d.alias_for_conda := by
  induction toks with
  | nil => intro d; rfl
  | cons t ts ih =>
    intro d
    rw [List.foldl_cons, ih, List.filterMap_cons]
    cases h : classifyToken t <;> simp [parseToken, condaVal, h]

/-- `alias_for_mingw` after the token loop: last `--mingw=` value wins. -/
theorem foldl_alias_for_mingw (toks : List String) : ∀ d : Directive,
    (toks.foldl parseToken d).alias_for_mingw =
      (toks.filterMap mingwVal).foldl (fun _ v => some v) d.alias_for_mingw := by
  induction toks with
  | nil => intro d; rfl
  | cons t ts ih =>
    intro d
    rw [List.foldl_cons, ih, List.filterMap_cons]
    cases h : classifyToken t <;> simp [parseToken, mingwVal, h]

/-- `platform` after the token loop: last `--platform=` value wins. -/
theorem foldl_platform (toks : List String) : ∀ d : Directive,
    (toks.foldl parseToken d).platform =
      (toks.filterMap platformVal).foldl (fun _ v => some v) d.platform := by
  induction toks with
  | nil => intro d; rfl
  | cons t ts ih =>
    intro d
    rw [List.foldl_cons, ih, List.filterMap_cons]
    cases h : classifyToken t <;> simp [parseToken, platformVal, h]

/-- `python_version` after the token loop: last `--python-version` value
wins. -/
theorem foldl_python_version (toks : List String) : ∀ d : Directive,
    (toks.foldl parseToken d).python_version =
      (toks.filterMap pyVerVal).foldl (fun _ v => some v) d.python_version := by
  induction toks with
  | nil => intro d; rfl
  | cons t ts ih =>
    intro d
    rw [List.foldl_cons, ih, List.filterMap_cons]
    cases h : classifyToken t <;> simp [parseToken, pyVerVal, h]

/-- `require` after the token loop: last non-flag non-empty token wins. -/
theorem foldl_require (toks : List String) : ∀ d : Directive,
    (toks.foldl parseToken d).require =
      (toks.filterMap pkgVal).foldl (fun _ v => some v) d.require := by
  induction toks with
  | nil => intro d; rfl
  | cons t ts ih =>
    intro d
    rw [List.foldl_cons, ih, List.filterMap_cons]
    cases h : classifyToken t <;> simp [parseToken, pkgVal, h]

/-- `List.any` is invariant under permutation. -/
theorem perm_any {α} {l1 l2 : List α} (hp : l1.Perm l2) (p : α → Bool) :
    l1.any p = l2.any p := by
  rw [Bool.eq_iff_iff]
  simp only [List.any_eq_true]
  constructor
  · rintro ⟨x, hx, hpx⟩
    exact ⟨x, hp.mem_iff.mp hx, hpx⟩
  · rintro ⟨x, hx, hpx⟩
    exact ⟨x, hp.mem_iff.mpr hx, hpx⟩

/-- The length of a `filterMap` counts the matching elements. -/
theorem length_filterMap_countP {α β} (f : α → Option β) (l : List α) :
    (l.filterMap f).length = l.countP (fun a => (f a).isSome) := by
  induction l with
  | nil => rfl
  | cons x xs ih => cases hx : f x <;> simp [List.filterMap_cons, hx, List.countP_cons, ih]

/-- Permuted lists of length at most one are equal. -/
theorem perm_eq_of_length_le_one {α} {l1 l2 : List α} (hp : l1.Perm l2)
    (h : l1.length ≤ 1) : l1 = l2 := by
  cases l1 with
  | nil => exact (hp.symm.eq_nil).symm
  | cons x xs =>
    cases xs with
    | nil => exact (List.perm_singleton.mp hp.symm).symm
    | cons y ys => simp at h

/-- Under a permutation with at most one token matched by the extractor, the
extracted values are equal lists. -/
theorem perm_filterMap_eq {α β} {l1 l2 : List α} (hp : l1.Perm l2)
    (f : α → Option β) (h : l1.countP (fun a => (f a).isSome) ≤ 1) :
    l1.filterMap f = l2.filterMap f :=
  perm_eq_of_length_le_one (hp.filterMap f)
    (by rw [length_filterMap_countP]; exact h)

/-- C4 counterexample: parsing is NOT permutation-invariant for flag fields
in general — permuting two different `--conda=` tokens changes the effective
`alias_for_conda` (last duplicate wins on either order). -/
theorem c4_flag_order_counterexample :
    List.Perm ["--conda=a", "--conda=b"] ["--conda=b", "--conda=a"] ∧
    parseTokens false ["--conda=a", "--conda=b"] ≠
      parseTokens false ["--conda=b", "--conda=a"] := by
  constructor
  · exact List.Perm.swap "--conda=b" "--conda=a" []
  · decide

/-- C4 amended: provided each value-carrying flag (`--conda=`, `--mingw=`,
`--platform=`, `--python-version`) occurs in at most one sub-token, parsing
any permutation of the sub-tokens yields identical effective flag fields
(boolean flags are fully order-independent); later duplicate flags overwrite
earlier ones (last-wins accumulation); and exactly one base package
expression is retained: the last sub-token, in left-to-right order, that
matches no recognized flag and is non-empty. -/
theorem c4_flag_order_amended (u : Bool) (toks toks2 : List String)
    (hp : toks.Perm toks2)
    (hc : toks.countP (fun t => (condaVal t).isSome) ≤ 1)
    (hm : toks.countP (fun t => (mingwVal t).isSome) ≤ 1)
    (hpl : toks.countP (fun t => (platformVal t).isSome) ≤ 1)
    (hpy : toks.countP (fun t => (pyVerVal t).isSome) ≤ 1) :
    ((parseTokens u toks).alias_for_conda = (parseTokens u toks2).alias_for_conda ∧
     (parseTokens u toks).alias_for_mingw = (parseTokens u toks2).alias_for_mingw ∧
     (parseTokens u toks).platform = (parseTokens u toks2).platform ∧
     (parseTokens u toks).python_version = (parseTokens u toks2).python_version ∧
     (parseTokens u toks).no_deps = (parseTokens u toks2).no_deps ∧
     (parseTokens u toks).only_binary = (parseTokens u toks2).only_binary ∧
     (parseTokens u toks).pre_release = (parseTokens u toks2).pre_release ∧
     (parseTokens u toks).prefer_binary = (parseTokens u toks2).prefer_binary ∧
     (parseTokens u toks).upgrade = (parseTokens u toks2).upgrade) ∧
    (parseTokens u toks).require = (toks.filterMap pkgVal).getLast? := by
  constructor
  · refine ⟨?_, ?_, ?_, ?_, ?_, ?_, ?_, ?_, ?_⟩
    · rw [parseTokens, parseTokens, foldl_alias_for_conda, foldl_alias_for_conda,
        perm_filterMap_eq hp condaVal hc]
    · rw [parseTokens, parseTokens, foldl_alias_for_mingw, foldl_alias_for_mingw,
        perm_filterMap_eq hp mingwVal hm]
    · rw [parseTokens, parseTokens, foldl_platform, foldl_platform,
        perm_filterMap_eq hp platformVal hpl]
    · rw [parseTokens, parseTokens, foldl_python_version, foldl_python_version,
        perm_filterMap_eq hp pyVerVal hpy]
    · rw [parseTokens, parseTokens, foldl_no_deps, foldl_no_deps, perm_any hp]
    · rw [parseTokens, parseTokens, foldl_only_binary, foldl_only_binary, perm_any hp]
    · rw [parseTokens, parseTokens, foldl_pre_release, foldl_pre_release, perm_any hp]
    · rw [parseTokens, parseTokens, foldl_prefer_binary, foldl_prefer_binary, perm_any hp]
    · rw [parseTokens, parseTokens, foldl_upgrade, foldl_upgrade, perm_any hp]
  · rw [parseTokens, foldl_require]
    exact foldl_lastWins_none _

/-- Witness for `c4_flag_order_amended` on a concrete permutation. -/
theorem c4_flag_order_amended_witness :
    (parseTokens false ["x", "--pre", "--upgrade"]).pre_release =
      (parseTokens false ["--upgrade", "--pre", "x"]).pre_release ∧
    (parseTokens false ["x", "--pre", "--upgrade"]).require =
      (["x", "--pre", "--upgrade"].filterMap pkgVal).getLast? := by
  have h := c4_flag_order_amended false ["x", "--pre", "--upgrade"]
    ["--upgrade", "--pre", "x"] (by decide) (by decide) (by decide) (by decide) (by decide)
  exact ⟨h.1.2.2.2.2.2.2.1, h.2⟩

/-- The candidate-name generator exactly as the claim words it: lowercased
variants are added when the name has ANY UPPERCASE character (rather than the
source's `not name.islower()`). -/
def c6_spec_candidates (package : String) : List String :=
  let packages := ["python-" ++ package, package]
  let packages :=
    if package.toList.any Char.isUpper then packages ++ packages.map strLower else packages
  if strHasChar package '_' then
    packages ++ packages.map (fun p => strReplaceChar p '_' '-')
  else if strHasChar package '-' then
    packages ++ packages.map (fun p => strReplaceChar p '-' '_')
  else packages

/-- C6 counterexample: for the name `"123"`, which has no uppercase
character, the source still appends lowercased variants (Python `islower()`
is false on a string with no cased character), so the generated list differs
from the claim's list. -/
theorem c6_mingw_candidates_counterexample :
    mingw_candidates "123" = ["python-123", "123", "python-123", "123"] ∧
    c6_spec_candidates "123" = ["python-123", "123"] ∧
    mingw_candidates "123" ≠ c6_spec_candidates "123" := by
  refine ⟨by decide, by decide, by decide⟩

/-- Negating `all not` gives `any`. -/
theorem not_all_not_any {α} (l : List α) (p : α → Bool) :
    (!(l.all fun a => !p a)) = l.any p := by
  induction l with
  | nil => rfl
  | cons x xs ih =>
    rw [List.all_cons, List.any_cons, ← ih]
    cases p x <;> simp

/-- C6 amended: the lowercase-variant pass triggers exactly when the raw name
is not entirely lowercase in Python's sense (`str.islower()` false); on every
name containing at least one letter this coincides with "has any uppercase
character", so on such names the generated candidate list is exactly the
claimed one — bridge-namespaced form first, then the raw name, then the
conditional lowercased / hyphenated / underscored variant passes.  The
generator is a pure function of the raw name, hence deterministic. -/
theorem c6_mingw_candidates_amended (p : String)
    (hcased : p.toList.any (fun c => c.isLower || c.isUpper) = true) :
    mingw_candidates p = c6_spec_candidates p := by
  have hcond : (!pyIsLower p) = p.toList.any Char.isUpper := by
    rw [pyIsLower, hcased, Bool.true_and]
    exact not_all_not_any p.toList Char.isUpper
  rw [mingw_candidates, c6_spec_candidates, hcond]

/-- Witness for `c6_mingw_candidates_amended` at `"Cython"`. -/
theorem c6_mingw_candidates_amended_witness :
    mingw_candidates "Cython" = c6_spec_candidates "Cython" :=
  c6_mingw_candidates_amended "Cython" (by decide)

/-- Exit status of the most recent invocation in a trace, seeded with the
status before the trace. -/
def lastRc : List Event → Option Int → Option Int
  | [], r => r
  | Event.run _ p :: rest, _ => lastRc rest (some p.returncode)
  | Event.record _ :: rest, r => lastRc rest r

/-- Soundness of the records in a trace: every `record` event is emitted
while the most recent invocation exited with status 0. -/
def recordsOk : List Event → Option Int → Bool
  | [], _ => true
  | Event.run _ p :: rest, _ => recordsOk rest (some p.returncode)
  | Event.record n :: rest, r => (r == some 0) && recordsOk (Event.record n :: rest).tail r

/-- The identifiers recorded in a trace, in order. -/
def recordsOf : List Event → List String
  | [] => []
  | Event.run _ _ :: rest => recordsOf rest
  | Event.record n :: rest => n :: recordsOf rest

theorem lastRc_append (a b : List Event) : ∀ r, lastRc (a ++ b) r = lastRc b (lastRc a r) := by
  induction a with
  | nil => intro r; rfl
  | cons e rest ih =>
    intro r
    cases e with
    | run cmd p => simp only [List.cons_append, lastRc, List.append_eq, ih]
    | record n => simp only [List.cons_append, lastRc, List.append_eq, ih]

theorem recordsOk_append (a b : List Event) :
    ∀ r, recordsOk (a ++ b) r = (recordsOk a r && recordsOk b (lastRc a r)) := by
  induction a with
  | nil => intro r; rfl
  | cons e rest ih =>
    intro r
    cases e with
    | run cmd p => simp only [List.cons_append, recordsOk, lastRc, List.append_eq, ih]
    | record n =>
      simp only [List.cons_append, recordsOk, lastRc, List.tail_cons, List.append_eq, ih,
        Bool.and_assoc]

theorem recordsOf_append (a b : List Event) : recordsOf (a ++ b) = recordsOf a ++ recordsOf b := by
  induction a with
  | nil => rfl
  | cons e rest ih =>
    cases e with
    | run cmd p => simp only [List.cons_append, recordsOf, List.append_eq, ih]
    | record n => simp only [List.cons_append, recordsOf, List.append_eq, ih]

theorem recordsOk_records (xs : List String) :
    recordsOk (xs.map Event.record) (some 0) = true := by
  induction xs with
  | nil => rfl
  | cons x rest ih => simp only [List.map_cons, recordsOk, List.tail_cons, ih, beq_self_eq_true]; rfl

theorem lastRc_records (xs : List String) : ∀ r, lastRc (xs.map Event.record) r = r := by
  induction xs with
  | nil => intro r; rfl
  | cons x rest ih => intro r; simp only [List.map_cons, lastRc, ih]

theorem recordsOf_records (xs : List String) : recordsOf (xs.map Event.record) = xs := by
  induction xs with
  | nil => rfl
  | cons x rest ih => simp only [List.map_cons, recordsOf, ih]

/-- The invariant behind C9: the trace's records are sound and the
installed-packages report is exactly the recorded identifiers. -/
def Good (s : St) : Prop :=
  recordsOk s.events none = true ∧ s.installed_packages = recordsOf s.events

theorem good_initSt : Good initSt :=
  ⟨rfl, rfl⟩

theorem good_runCmd (w : Nat → ProcResult) (cmd : List String) (s : St) (h : Good s) :
    Good (runCmd w cmd s).2 := by
  obtain ⟨h1, h2⟩ := h
  constructor
  · show recordsOk (s.events ++ [Event.run cmd (w s.idx)]) none = true
    rw [recordsOk_append, h1]
    rfl
  · show s.installed_packages = recordsOf (s.events ++ [Event.run cmd (w s.idx)])
    rw [recordsOf_append, h2]
    simp [recordsOf]

theorem lastRc_runCmd (w : Nat → ProcResult) (cmd : List String) (s : St) :
    lastRc ((runCmd w cmd s).2).events none = some ((w s.idx).returncode) := by
  show lastRc (s.events ++ [Event.run cmd (w s.idx)]) none = _
  rw [lastRc_append]
  rfl

theorem good_recordInstalled (s : St) (xs : List String) (h : Good s)
    (hlast : lastRc s.events none = some 0) : Good (recordInstalled s xs) := by
  obtain ⟨h1, h2⟩ := h
  constructor
  · show recordsOk (s.events ++ xs.map Event.record) none = true
    rw [recordsOk_append, h1, hlast, recordsOk_records]
    rfl
  · show s.installed_packages ++ xs = recordsOf (s.events ++ xs.map Event.record)
    rw [recordsOf_append, recordsOf_records, h2]

/-- The common "run a command, record on exit 0" shape preserves the
invariant. -/
theorem good_run_guard (w : Nat → ProcResult) (cmd : List String) (s : St)
    (xs : List String) (h : Good s) :
    Good (if (runCmd w cmd s).1.returncode = 0 then recordInstalled (runCmd w cmd s).2 xs
      else (runCmd w cmd s).2) := by
  by_cases h0 : (runCmd w cmd s).1.returncode = 0
  · rw [if_pos h0]
    apply good_recordInstalled _ _ (good_runCmd w cmd s h)
    rw [lastRc_runCmd]
    exact congrArg some h0
  · rw [if_neg h0]
    exact good_runCmd w cmd s h

theorem good_condaSearchFold (ctx : Ctx) (w : Nat → ProcResult) (name : String) :
    ∀ (extras args : List String) (s : St), Good s →
      Good (condaSearchFold ctx w name extras args s).2 := by
  intro extras
  induction extras with
  | nil => intro args s h; exact h
  | cons e rest ih =>
    intro args s h
    simp only [condaSearchFold]
    apply ih
    exact good_runCmd w _ s h

theorem good_condaStep (ctx : Ctx) (w : Nat → ProcResult) (extras : List String)
    (d : Directive) (s : St) (h : Good s) : Good (condaStep ctx w extras d s) := by
  cases hcr : conda_require d with
  | none => simp only [condaStep, hcr]; exact h
  | some name =>
    simp only [condaStep, hcr]
    have hg2 := good_condaSearchFold ctx w name extras [] s h
    by_cases hargs : (condaSearchFold ctx w name extras [] s).1 ≠ []
    · rw [if_pos hargs]
      exact good_run_guard w _ _ _ hg2
    · rw [if_neg hargs]
      exact hg2

theorem good_mingwLoop (ctx : Ctx) (w : Nat → ProcResult) :
    ∀ (cands : List String) (s : St), Good s → Good (mingwLoop ctx w cands s).2 := by
  intro cands
  induction cands with
  | nil => intro s h; exact h
  | cons c rest ih =>
    intro s h
    simp only [mingwLoop, apply_ite Prod.snd]
    by_cases h1 : (runCmd w (pacman_search ++ [ctx.mingwPkgNamespace ++ "-" ++ c]) s).1.returncode = 1
    · rw [if_pos h1]
      exact ih _ (good_runCmd w _ s h)
    · rw [if_neg h1]
      by_cases h2 : (decide ((runCmd w (pacman_search ++ [ctx.mingwPkgNamespace ++ "-" ++ c]) s).1.returncode = 0) &&
          strContains (runCmd w (pacman_search ++ [ctx.mingwPkgNamespace ++ "-" ++ c]) s).1.stdout "installed") = true
      · rw [if_pos h2]
        apply good_recordInstalled _ _ (good_runCmd w _ s h)
        rw [lastRc_runCmd]
        exact congrArg some (of_decide_eq_true (Bool.and_elim_left h2))
      · rw [if_neg h2]
        by_cases h3 : (runCmd w (pacman_args ++ [ctx.mingwPkgNamespace ++ "-" ++ c])
            (runCmd w (pacman_search ++ [ctx.mingwPkgNamespace ++ "-" ++ c]) s).2).1.returncode = 0
        · rw [if_pos h3]
          apply good_recordInstalled _ _ (good_runCmd w _ _ (good_runCmd w _ s h))
          rw [lastRc_runCmd]
          exact congrArg some h3
        · rw [if_neg h3]
          exact ih _ (good_runCmd w _ _ (good_runCmd w _ s h))

theorem good_pipStep (ctx : Ctx) (w : Nat → ProcResult) (extras links : List String)
    (d : Directive) (s : St) (h : Good s) : Good (pipStep ctx w extras links d s) := by
  cases hr : d.require with
  | none => simp only [pipStep, hr]; exact h
  | some name =>
    simp only [pipStep, hr]
    by_cases hargs : pipArgsFlags ctx d name ≠ []
    · rw [if_pos hargs]
      by_cases h0 : (runCmd w (pipFullCmd ctx extras links d name) s).1.returncode = 0
      · rw [if_pos h0]
        apply good_recordInstalled _ _ (good_runCmd w _ s h)
        rw [lastRc_runCmd]
        exact congrArg some h0
      · rw [if_neg h0]
        by_cases hb : (!ctx.is_final_version && !d.pre_release) = true
        · rw [if_pos hb]
          exact good_run_guard w _ _ _ (good_runCmd w _ s h)
        · rw [if_neg hb]
          exact good_runCmd w _ s h
    · rw [if_neg hargs]
      exact h

theorem good_processReq (ctx : Ctx) (w : Nat → ProcResult) (extras links : List String)
    (req : String) (s : St) (h : Good s) : Good (processReq ctx w extras links req s) := by
  simp only [processReq]
  by_cases h1 : is_supported_platform_str (parseReq ctx.pip_upgrade req).platform ctx.platform_in_use = true
  · rw [if_pos h1]
    by_cases h2 : checkPython ctx (parseReq ctx.pip_upgrade req) = true
    · rw [if_pos h2]
      by_cases h3 : ctx.is_conda = true
      · rw [if_pos h3]
        exact good_condaStep ctx w extras _ s h
      · rw [if_neg h3]
        by_cases h4 : ctx.is_mingw = true
        · rw [if_pos h4]
          cases hmr : mingw_require (parseReq ctx.pip_upgrade req) with
          | none => exact h
          | some name =>
            simp only []
            by_cases h5 : (mingwLoop ctx w (mingw_candidates name) s).1 = true
            · rw [if_pos h5]
              exact good_mingwLoop ctx w _ s h
            · rw [if_neg h5]
              exact good_pipStep ctx w extras links _ _ (good_mingwLoop ctx w _ s h)
        · rw [if_neg h4]
          exact good_pipStep ctx w extras links _ s h
    · rw [if_neg h2]
      exact h
  · rw [if_neg h1]
    exact h

theorem good_foldl (ctx : Ctx) (w : Nat → ProcResult) (extras links : List String) :
    ∀ (reqs : List String) (s : St), Good s →
      Good (reqs.foldl (fun s req => processReq ctx w extras links req s) s) := by
  intro reqs
  induction reqs with
  | nil => intro s h; exact h
  | cons r rest ih =>
    intro s h
    rw [List.foldl_cons]
    exact ih _ (good_processReq ctx w extras links r s h)

theorem good_pipBatch (ctx : Ctx) (w : Nat → ProcResult) (extras links : List String)
    (s : St) (h : Good s) : Good (pipBatch ctx w extras links s) := by
  rw [pipBatch]
  by_cases hne : s.pip_pkgs ≠ []
  · rw [if_pos hne]
    exact good_run_guard w _ _ _ h
  · rw [if_neg hne]
    exact h

theorem good_condaBatch (ctx : Ctx) (w : Nat → ProcResult) (s : St) (h : Good s) :
    Good (condaBatch ctx w s) := by
  rw [condaBatch]
  by_cases hne : s.conda_pkgs ≠ []
  · rw [if_pos hne]
    exact good_run_guard w _ _ _ h
  · rw [if_neg hne]
    exact h

/-- C9: in any run, every identifier of the installed-packages report was
recorded immediately under an invocation that exited with status 0 (the trace
is records-sound), and the report is exactly the trace's records in order; in
particular no identifier is ever recorded following a non-zero exit, on any
backend. -/
theorem c9_installed_only_after_success (ctx : Ctx) (w : Nat → ProcResult)
    (requires extras links : List String) :
    recordsOk (install_requirements ctx w requires extras links).events none = true ∧
    (install_requirements ctx w requires extras links).installed_packages =
      recordsOf (install_requirements ctx w requires extras links).events :=
  good_condaBatch ctx w _
    (good_pipBatch ctx w extras links _
      (good_foldl ctx w extras links requires initSt good_initSt))

/-- A conda-like context. -/
def ctxConda : Ctx :=
  { executable := "python", conda_exe := "conda", prefix_dir := "/opt/conda",
    mingwPkgNamespace := "", is_conda := true, is_mingw := false,
    is_final_version := true, pip_upgrade := false, pipenv_active := false,
    platform_in_use := "linux", version_in_use := (3, 12, 0), py_version_nodot := "312" }

/-- An oracle on which every invocation fails. -/
def wAllFail : Nat → ProcResult :=
  fun _ => ⟨1, "", []⟩

/-- C10: a directive whose backend-specific alias is the empty string (conda
alias on a conda-like context, or mingw alias on a posix-bridge context) is
skipped for the entire run: processing it leaves the state untouched (no
search or install command, no batch deferral, no report entry), and deleting
it from the requirement list leaves the whole run unchanged. -/
theorem c10_empty_alias_skip (ctx : Ctx) (w : Nat → ProcResult)
    (extras links : List String) (req : String)
    (hskip : (ctx.is_conda = true ∧ (parseReq ctx.pip_upgrade req).alias_for_conda = some "") ∨
      (ctx.is_conda = false ∧ ctx.is_mingw = true ∧
        (parseReq ctx.pip_upgrade req).alias_for_mingw = some "")) :
    (∀ s : St, processReq ctx w extras links req s = s) ∧
    (∀ l1 l2 : List String,
      install_requirements ctx w (l1 ++ req :: l2) extras links =
        install_requirements ctx w (l1 ++ l2) extras links) := by
  have hstep : ∀ s : St, processReq ctx w extras links req s = s := by
    intro s
    simp only [processReq]
    by_cases h1 : is_supported_platform_str (parseReq ctx.pip_upgrade req).platform
        ctx.platform_in_use = true
    · rw [if_pos h1]
      by_cases h2 : checkPython ctx (parseReq ctx.pip_upgrade req) = true
      · rw [if_pos h2]
        rcases hskip with ⟨hc, halias⟩ | ⟨hc, hm, halias⟩
        · rw [if_pos hc]
          have hcr : conda_require (parseReq ctx.pip_upgrade req) = none := by
            rw [conda_require, halias]
            rfl
          simp only [condaStep, hcr]
        · rw [if_neg (by rw [hc]; exact Bool.false_ne_true), if_pos hm]
          have hmr : mingw_require (parseReq ctx.pip_upgrade req) = none := by
            rw [mingw_require, halias]
            rfl
          simp only [hmr]
      · rw [if_neg h2]
    · rw [if_neg h1]
  refine ⟨hstep, ?_⟩
  intro l1 l2
  rw [install_requirements, install_requirements, List.foldl_append, List.foldl_append,
    List.foldl_cons, hstep]

/-- Witness for `c10_empty_alias_skip`: an empty conda alias on a conda-like
context leaves the state untouched. -/
theorem c10_empty_alias_skip_witness :
    processReq ctxConda wAllFail [] [] "foo --conda=" initSt = initSt :=
  (c10_empty_alias_skip ctxConda wAllFail [] [] "foo --conda="
    (Or.inl ⟨rfl, by decide⟩)).1 initSt

/-- A standard-installer invocation: a `python -m pip install ...` command or
a `pipenv install ...` command. -/
def isPipCmd (ctx : Ctx) (cmd : List String) : Bool :=
  (pip_install ctx).isPrefixOf cmd || pipenv_install.isPrefixOf cmd

/-- Invariant of a conda-like run: every invocation so far is a conda search
or conda install, and no package was ever deferred to the pip batch. -/
def CondaOnly (ctx : Ctx) (s : St) : Prop :=
  (∀ cmd p, Event.run cmd p ∈ s.events → ∃ tail,
    cmd = ctx.conda_exe :: "search" :: tail ∨ cmd = ctx.conda_exe :: "install" :: tail) ∧
  s.pip_pkgs = []

theorem condaOnly_initSt (ctx : Ctx) : CondaOnly ctx initSt := by
  constructor
  · intro cmd p hmem
    simp [initSt] at hmem
  · rfl

theorem condaOnly_runCmd (ctx : Ctx) (w : Nat → ProcResult) (cmd : List String) (s : St)
    (h : CondaOnly ctx s)
    (hshape : ∃ tail, cmd = ctx.conda_exe :: "search" :: tail ∨
      cmd = ctx.conda_exe :: "install" :: tail) :
    CondaOnly ctx (runCmd w cmd s).2 := by
  constructor
  · intro cmd2 p2 hmem
    show _ 
    have : Event.run cmd2 p2 ∈ s.events ++ [Event.run cmd (w s.idx)] := hmem
    rw [List.mem_append] at this
    rcases this with hl | hr
    · exact h.1 cmd2 p2 hl
    · simp only [List.mem_singleton, Event.run.injEq] at hr
      rw [hr.1]
      exact hshape
  · exact h.2

theorem condaOnly_recordInstalled (ctx : Ctx) (s : St) (xs : List String)
    (h : CondaOnly ctx s) : CondaOnly ctx (recordInstalled s xs) := by
  constructor
  · intro cmd p hmem
    have : Event.run cmd p ∈ s.events ++ xs.map Event.record := hmem
    rw [List.mem_append] at this
    rcases this with hl | hr
    · exact h.1 cmd p hl
    · rw [List.mem_map] at hr
      obtain ⟨x, _, hx⟩ := hr
      cases hx
  · exact h.2

theorem condaOnly_condaSearchFold (ctx : Ctx) (w : Nat → ProcResult) (name : String) :
    ∀ (extras args : List String) (s : St), CondaOnly ctx s →
      CondaOnly ctx (condaSearchFold ctx w name extras args s).2 := by
  intro extras
  induction extras with
  | nil => intro args s h; exact h
  | cons e rest ih =>
    intro args s h
    simp only [condaSearchFold]
    apply ih
    apply condaOnly_runCmd ctx w _ s h
    exact ⟨_, Or.inl rfl⟩

theorem condaOnly_condaStep (ctx : Ctx) (w : Nat → ProcResult) (extras : List String)
    (d : Directive) (s : St) (h : CondaOnly ctx s) :
    CondaOnly ctx (condaStep ctx w extras d s) := by
  cases hcr : conda_require d with
  | none => simp only [condaStep, hcr]; exact h
  | some name =>
    simp only [condaStep, hcr]
    have h2 := condaOnly_condaSearchFold ctx w name extras [] s h
    by_cases hargs : (condaSearchFold ctx w name extras [] s).1 ≠ []
    · rw [if_pos hargs]
      have h3 := condaOnly_runCmd ctx w
        (conda_install ctx ++ (condaSearchFold ctx w name extras [] s).1) _ h2
        ⟨_, Or.inr rfl⟩
      by_cases h0 : (runCmd w (conda_install ctx ++ (condaSearchFold ctx w name extras [] s).1)
          (condaSearchFold ctx w name extras [] s).2).1.returncode = 0
      · rw [if_pos h0]
        exact condaOnly_recordInstalled ctx _ _ h3
      · rw [if_neg h0]
        exact h3
    · rw [if_neg hargs]
      exact ⟨h2.1, h2.2⟩

theorem condaOnly_processReq (ctx : Ctx) (w : Nat → ProcResult) (extras links : List String)
    (req : String) (s : St) (hc : ctx.is_conda = true) (h : CondaOnly ctx s) :
    CondaOnly ctx (processReq ctx w extras links req s) := by
  simp only [processReq]
  by_cases h1 : is_supported_platform_str (parseReq ctx.pip_upgrade req).platform
      ctx.platform_in_use = true
  · rw [if_pos h1]
    by_cases h2 : checkPython ctx (parseReq ctx.pip_upgrade req) = true
    · rw [if_pos h2, if_pos hc]
      exact condaOnly_condaStep ctx w extras _ s h
    · rw [if_neg h2]
      exact h
  · rw [if_neg h1]
    exact h

theorem condaOnly_install_requirements (ctx : Ctx) (w : Nat → ProcResult)
    (reqs extras links : List String) (hc : ctx.is_conda = true) :
    CondaOnly ctx (install_requirements ctx w reqs extras links) := by
  have hfold : ∀ (l : List String) (s : St), CondaOnly ctx s →
      CondaOnly ctx (l.foldl (fun s req => processReq ctx w extras links req s) s) := by
    intro l
    induction l with
    | nil => intro s h; exact h
    | cons r rest ih =>
      intro s h
      rw [List.foldl_cons]
      exact ih _ (condaOnly_processReq ctx w extras links r s hc h)
  have h1 := hfold reqs initSt (condaOnly_initSt ctx)
  rw [install_requirements]
  have h2 : pipBatch ctx w extras links
      (reqs.foldl (fun s req => processReq ctx w extras links req s) initSt) =
      reqs.foldl (fun s req => processReq ctx w extras links req s) initSt := by
    rw [pipBatch, if_neg]
    intro hne
    exact hne h1.2
  rw [h2]
  rw [condaBatch]
  by_cases hne : (reqs.foldl (fun s req => processReq ctx w extras links req s) initSt).conda_pkgs ≠ []
  · rw [if_pos hne]
    have h3 := condaOnly_runCmd ctx w _ _ h1 (⟨_, Or.inr rfl⟩ :
      ∃ tail, conda_install ctx ++ ["--override-channels", "-c", "conda-forge"] ++
          (reqs.foldl (fun s req => processReq ctx w extras links req s) initSt).conda_pkgs =
          ctx.conda_exe :: "search" :: tail ∨ _ = ctx.conda_exe :: "install" :: tail)
    by_cases h0 : (runCmd w (conda_install ctx ++ ["--override-channels", "-c", "conda-forge"] ++
        (reqs.foldl (fun s req => processReq ctx w extras links req s) initSt).conda_pkgs)
        (reqs.foldl (fun s req => processReq ctx w extras links req s) initSt)).1.returncode = 0
    · rw [if_pos h0]
      exact condaOnly_recordInstalled ctx _ _ h3
    · rw [if_neg h0]
      exact h3
  · rw [if_neg hne]
    exact h1

/-- A conda-shaped command is not a standard-installer command. -/
theorem isPipCmd_conda_shape (ctx : Ctx) (hpe : ctx.conda_exe ≠ "pipenv")
    (tail : List String) :
    isPipCmd ctx (ctx.conda_exe :: "search" :: tail) = false ∧
    isPipCmd ctx (ctx.conda_exe :: "install" :: tail) = false := by
  have hm1 : (("-m" : String) == "search") = false := by decide
  have hm2 : (("-m" : String) == "install") = false := by decide
  have hp1 : (("install" : String) == "search") = false := by decide
  have hpv : (("pipenv" : String) == ctx.conda_exe) = false :=
    beq_eq_false_iff_ne.mpr (Ne.symm hpe)
  constructor
  · rw [isPipCmd, pip_install, pipenv_install]
    simp only [List.isPrefixOf, hm1, hp1, Bool.false_and, Bool.and_false, Bool.false_or]
  · rw [isPipCmd, pip_install, pipenv_install]
    simp only [List.isPrefixOf, hm2, hpv, Bool.false_and, Bool.and_false, Bool.false_or,
      Bool.or_false]

/-- C5: on a conda-like context, no standard-installer (pip or pipenv)
install command is ever issued during a run — every invocation in the trace
is a conda command — even when conda invocations fail. -/
theorem c5_conda_exclusive (ctx : Ctx) (w : Nat → ProcResult)
    (reqs extras links : List String) (hc : ctx.is_conda = true)
    (hpe : ctx.conda_exe ≠ "pipenv") :
    ∀ cmd p, Event.run cmd p ∈ (install_requirements ctx w reqs extras links).events →
      isPipCmd ctx cmd = false := by
  intro cmd p hmem
  obtain ⟨tail, htail⟩ :=
    (condaOnly_install_requirements ctx w reqs extras links hc).1 cmd p hmem
  rcases htail with rfl | rfl
  · exact (isPipCmd_conda_shape ctx hpe tail).1
  · exact (isPipCmd_conda_shape ctx hpe tail).2

/-- Witness for `c5_conda_exclusive` on a concrete conda run whose only
invocation (the conda-forge batch install) fails. -/
theorem c5_conda_exclusive_witness :
    isPipCmd ctxConda
      ["conda", "install", "--prefix", "/opt/conda", "-y", "-q", "--no-channel-priority",
        "-S", "--override-channels", "-c", "conda-forge", "baz"] = false :=
  c5_conda_exclusive ctxConda wAllFail ["baz"] [] [] rfl (by decide)
    ["conda", "install", "--prefix", "/opt/conda", "-y", "-q", "--no-channel-priority",
      "-S", "--override-channels", "-c", "conda-forge", "baz"]
    ⟨1, "", []⟩ (by decide)

/-- When every candidate search exits 1 ("does not exist with this name"),
the MinGW loop installs nothing: it consumes exactly one search per
candidate, records nothing, touches no batch list, and reports `false`. -/
theorem mingwLoop_all_notfound (ctx : Ctx) (w : Nat → ProcResult) :
    ∀ (cands : List String) (s : St),
      (∀ i, i < cands.length → (w (s.idx + i)).returncode = 1) →
      ∃ s2, mingwLoop ctx w cands s = (false, s2) ∧
        s2.installed_packages = s.installed_packages ∧
        s2.conda_pkgs = s.conda_pkgs ∧
        s2.pip_pkgs = s.pip_pkgs ∧
        s2.idx = s.idx + cands.length := by
  intro cands
  induction cands with
  | nil =>
    intro s h
    exact ⟨s, rfl, rfl, rfl, rfl, rfl⟩
  | cons c rest ih =>
    intro s h
    have h0 : (w s.idx).returncode = 1 := by
      have := h 0 (by simp)
      simpa using this
    simp only [mingwLoop]
    rw [if_pos (show (runCmd w (pacman_search ++ [ctx.mingwPkgNamespace ++ "-" ++ c]) s).1.returncode = 1 from h0)]
    obtain ⟨s2, heq, hi, hc2, hp2, hidx⟩ :=
      ih (runCmd w (pacman_search ++ [ctx.mingwPkgNamespace ++ "-" ++ c]) s).2
        (by
          intro i hlt
          have := h (i + 1) (by simpa using Nat.succ_lt_succ hlt)
          rwa [show s.idx + (i + 1) = s.idx + 1 + i by omega] at this)
    refine ⟨s2, heq, hi, hc2, hp2, ?_⟩
    rw [hidx]
    show s.idx + 1 + rest.length = s.idx + (rest.length + 1)
    omega

/-- C7: on a posix-bridge context, a directive none of whose candidate names
exists (every `pacman -Ss` exits 1) is not dropped: processing it continues
with the standard-installer section (`pipStep`) on the post-search state,
which differs from the entry state only by the logged searches — nothing was
recorded or deferred. -/
theorem c7_mingw_fallthrough (ctx : Ctx) (w : Nat → ProcResult)
    (extras links : List String) (req : String) (s : St) (name : String)
    (hcm : ctx.is_conda = false) (hm : ctx.is_mingw = true)
    (hplat : is_supported_platform_str (parseReq ctx.pip_upgrade req).platform
      ctx.platform_in_use = true)
    (hpy : checkPython ctx (parseReq ctx.pip_upgrade req) = true)
    (hname : mingw_require (parseReq ctx.pip_upgrade req) = some name)
    (hsearch : ∀ i, i < (mingw_candidates name).length → (w (s.idx + i)).returncode = 1) :
    ∃ s2, processReq ctx w extras links req s =
        pipStep ctx w extras links
          { parseReq ctx.pip_upgrade req with require := some name } s2 ∧
      s2.installed_packages = s.installed_packages ∧
      s2.conda_pkgs = s.conda_pkgs ∧
      s2.pip_pkgs = s.pip_pkgs ∧
      s2.idx = s.idx + (mingw_candidates name).length := by
  obtain ⟨s2, heq, hi, hc2, hp2, hidx⟩ := mingwLoop_all_notfound ctx w (mingw_candidates name) s hsearch
  refine ⟨s2, ?_, hi, hc2, hp2, hidx⟩
  simp only [processReq]
  rw [if_pos hplat, if_pos hpy, if_neg (show ¬ctx.is_conda = true by rw [hcm]; exact Bool.false_ne_true),
    if_pos hm]
  simp only [hname, heq]
  simp

/-- A MSYS2-like posix-bridge context. -/
def ctxMingw : Ctx :=
  { executable := "python", conda_exe := "conda", prefix_dir := "/mingw64",
    mingwPkgNamespace := "mingw-w64-x86_64", is_conda := false, is_mingw := true,
    is_final_version := true, pip_upgrade := false, pipenv_active := false,
    platform_in_use := "mingw", version_in_use := (3, 12, 0), py_version_nodot := "312" }

/-- Witness for `c7_mingw_fallthrough`: on a bridge context where both
candidate searches for `"baz"` exit 1, the directive falls through to pip. -/
theorem c7_mingw_fallthrough_witness :
    ∃ s2, processReq ctxMingw wAllFail [] [] "baz" initSt =
        pipStep ctxMingw wAllFail [] []
          { parseReq ctxMingw.pip_upgrade "baz" with require := some "baz" } s2 ∧
      s2.installed_packages = initSt.installed_packages ∧
      s2.conda_pkgs = initSt.conda_pkgs ∧
      s2.pip_pkgs = initSt.pip_pkgs ∧
      s2.idx = initSt.idx + (mingw_candidates "baz").length :=
  c7_mingw_fallthrough ctxMingw wAllFail [] [] "baz" initSt "baz" rfl rfl
    (by decide) (by decide) (by decide) (by decide)

/-- Outside pipenv, the per-directive pip argument list is empty exactly when
none of the five special flags is set. -/
theorem pipArgsFlags_nil_iff (ctx : Ctx) (d : Directive) (name : String)
    (hp : ctx.pipenv_active = false) :
    pipArgsFlags ctx d name = [] ↔
      (d.no_deps || d.only_binary || d.pre_release || d.prefer_binary || d.upgrade) = false := by
  obtain ⟨ac, am, nd, pl, pv, ob, prr, pb, rq, ug⟩ := d
  simp only [pipArgsFlags, hp]
  cases nd <;> cases ob <;> cases prr <;> cases pb <;> cases ug <;> simp

/-- C8: within the standard installer backend (outside pipenv), a directive
carrying one of the special flags (`no_deps`, `only_binary`, `pre_release`,
`prefer_binary`, `upgrade`) is executed as its own install command (every
event it contributes is an invocation of its own per-directive command — or
its `--pre` retry — or the recording of its own name), and it joins no
batch; a directive with no special flags issues no command of its own and is
deferred to the pip batch; the batch is a single install command covering
exactly the deferred packages. -/
theorem c8_pip_batching (ctx : Ctx) (w : Nat → ProcResult) (extras links : List String)
    (d : Directive) (name : String) (s : St)
    (hp : ctx.pipenv_active = false) (hreq : d.require = some name) :
    ((d.no_deps || d.only_binary || d.pre_release || d.prefer_binary || d.upgrade) = false →
      pipStep ctx w extras links d s = { s with pip_pkgs := s.pip_pkgs ++ [name] }) ∧
    ((d.no_deps || d.only_binary || d.pre_release || d.prefer_binary || d.upgrade) = true →
      (pipStep ctx w extras links d s).pip_pkgs = s.pip_pkgs ∧
      ∃ evs, (pipStep ctx w extras links d s).events = s.events ++ evs ∧ evs ≠ [] ∧
        ∀ e ∈ evs, (∃ rest p, e = Event.run (pipFullCmd ctx extras links d name ++ rest) p) ∨
          e = Event.record name) ∧
    (∀ s2 : St, s2.pip_pkgs ≠ [] →
      ∃ p : ProcResult,
        (pipBatch ctx w extras links s2).events =
          s2.events ++ Event.run (pip_batch_cmd ctx extras links s2.pip_pkgs) p ::
            (if p.returncode = 0 then s2.pip_pkgs.map Event.record else [])) := by
  refine ⟨?_, ?_, ?_⟩
  · intro hflags
    have hnil : pipArgsFlags ctx d name = [] := (pipArgsFlags_nil_iff ctx d name hp).mpr hflags
    simp only [pipStep, hreq]
    rw [if_neg (not_ne_iff.mpr hnil)]
  · intro hflags
    have hne : pipArgsFlags ctx d name ≠ [] := by
      intro hnil
      rw [(pipArgsFlags_nil_iff ctx d name hp).mp hnil] at hflags
      exact Bool.false_ne_true hflags
    simp only [pipStep, hreq]
    rw [if_pos hne]
    by_cases h0 : (runCmd w (pipFullCmd ctx extras links d name) s).1.returncode = 0
    · rw [if_pos h0]
      refine ⟨rfl, [Event.run (pipFullCmd ctx extras links d name) (w s.idx), Event.record name],
        ?_, by simp, ?_⟩
      · show ((s.events ++ [Event.run (pipFullCmd ctx extras links d name) (w s.idx)]) ++
          [Event.record name]) = _
        rw [List.append_assoc]
        rfl
      · intro e he
        simp only [List.mem_cons, List.mem_singleton, List.not_mem_nil, or_false] at he
        rcases he with rfl | rfl
        · exact Or.inl ⟨[], w s.idx, by rw [List.append_nil]⟩
        · exact Or.inr rfl
    · rw [if_neg h0]
      by_cases hb : (!ctx.is_final_version && !d.pre_release) = true
      · rw [if_pos hb]
        by_cases h02 : (runCmd w (pipFullCmd ctx extras links d name ++ ["--pre"])
            (runCmd w (pipFullCmd ctx extras links d name) s).2).1.returncode = 0
        · rw [if_pos h02]
          refine ⟨rfl, [Event.run (pipFullCmd ctx extras links d name) (w s.idx),
            Event.run (pipFullCmd ctx extras links d name ++ ["--pre"]) (w (s.idx + 1)),
            Event.record name], ?_, by simp, ?_⟩
          · show (((s.events ++ [Event.run (pipFullCmd ctx extras links d name) (w s.idx)]) ++
              [Event.run (pipFullCmd ctx extras links d name ++ ["--pre"]) (w (s.idx + 1))]) ++
              [Event.record name]) = _
            rw [List.append_assoc, List.append_assoc]
            rfl
          · intro e he
            simp only [List.mem_cons, List.mem_singleton, List.not_mem_nil, or_false] at he
            rcases he with rfl | rfl | rfl
            · exact Or.inl ⟨[], w s.idx, by rw [List.append_nil]⟩
            · exact Or.inl ⟨["--pre"], w (s.idx + 1), rfl⟩
            · exact Or.inr rfl
        · rw [if_neg h02]
          refine ⟨rfl, [Event.run (pipFullCmd ctx extras links d name) (w s.idx),
            Event.run (pipFullCmd ctx extras links d name ++ ["--pre"]) (w (s.idx + 1))],
            ?_, by simp, ?_⟩
          · show ((s.events ++ [Event.run (pipFullCmd ctx extras links d name) (w s.idx)]) ++
              [Event.run (pipFullCmd ctx extras links d name ++ ["--pre"]) (w (s.idx + 1))]) = _
            rw [List.append_assoc]
            rfl
          · intro e he
            simp only [List.mem_cons, List.mem_singleton, List.not_mem_nil, or_false] at he
            rcases he with rfl | rfl
            · exact Or.inl ⟨[], w s.idx, by rw [List.append_nil]⟩
            · exact Or.inl ⟨["--pre"], w (s.idx + 1), rfl⟩
      · rw [if_neg hb]
        refine ⟨rfl, [Event.run (pipFullCmd ctx extras links d name) (w s.idx)], rfl,
          by simp, ?_⟩
        intro e he
        simp only [List.mem_singleton] at he
        subst he
        exact Or.inl ⟨[], w s.idx, by rw [List.append_nil]⟩
  · intro s2 hne2
    simp only [pipBatch]
    rw [if_pos hne2]
    by_cases h0 : (runCmd w (pip_batch_cmd ctx extras links s2.pip_pkgs) s2).1.returncode = 0
    · rw [if_pos h0]
      refine ⟨w s2.idx, ?_⟩
      rw [if_pos (show (w s2.idx).returncode = 0 from h0)]
      show ((s2.events ++ [Event.run (pip_batch_cmd ctx extras links s2.pip_pkgs) (w s2.idx)]) ++
        s2.pip_pkgs.map Event.record) = _
      rw [List.append_assoc]
      rfl
    · rw [if_neg h0]
      refine ⟨w s2.idx, ?_⟩
      rw [if_neg (show ¬(w s2.idx).returncode = 0 from h0)]
      rfl

/-- Witness for `c8_pip_batching`: a no-flag directive is deferred to the
batch list rather than run on its own. -/
theorem c8_pip_batching_witness :
    pipStep ctxStd wAllFail [] [] { require := some "a" } initSt =
      { initSt with pip_pkgs := initSt.pip_pkgs ++ ["a"] } :=
  (c8_pip_batching ctxStd wAllFail [] [] { require := some "a" } "a" initSt rfl rfl).1 rfl

/-- C2 counterexample: a directive with no special flags (such as `"baz"`)
is NOT retried.  Under a preview interpreter with no `--pre` requested, the
batched install of `"baz"` exits 1, the oracle's next response would succeed,
and yet the trace holds exactly one invocation — without `--pre` — and the
report stays empty: no retry is attempted for batched directives. -/
theorem c2_preview_retry_counterexample :
    ctxStd.is_final_version = false ∧
    (parseReq ctxStd.pip_upgrade "baz").pre_release = false ∧
    wFailThenOk 1 = ⟨0, "", []⟩ ∧
    (install_requirements ctxStd wFailThenOk ["baz"] [] []).events =
      [Event.run ["python", "-m", "pip", "install", "baz"] ⟨1, "", []⟩] ∧
    (install_requirements ctxStd wFailThenOk ["baz"] [] []).installed_packages = [] := by
  refine ⟨rfl, by decide, by decide, by decide, by decide⟩

/-- C2 amended: the one automatic `--pre` retry applies to directives
executed as their own install command (those with special flags); for such a
directive whose install exits non-zero under a preview interpreter without a
prior pre-release request, exactly one retry is attempted with `--pre`
appended, and when the retry exits 0 the package name is recorded exactly
once more in the installed report.  Directives with no special flags go
through the end-of-run batch, which is never retried. -/
theorem c2_preview_retry_amended (ctx : Ctx) (w : Nat → ProcResult)
    (extras links : List String) (d : Directive) (name : String) (s : St)
    (hreq : d.require = some name)
    (hargs : pipArgsFlags ctx d name ≠ [])
    (hfinal : ctx.is_final_version = false)
    (hpre : d.pre_release = false)
    (h1 : (w s.idx).returncode ≠ 0)
    (h2 : (w (s.idx + 1)).returncode = 0) :
    pipStep ctx w extras links d s =
      { s with
        idx := s.idx + 2,
        events := s.events ++
          [Event.run (pipFullCmd ctx extras links d name) (w s.idx),
           Event.run (pipFullCmd ctx extras links d name ++ ["--pre"]) (w (s.idx + 1)),
           Event.record name],
        installed_packages := s.installed_packages ++ [name] } ∧
    (pipStep ctx w extras links d s).installed_packages.count name =
      s.installed_packages.count name + 1 := by
  have heq : pipStep ctx w extras links d s =
      { s with
        idx := s.idx + 2,
        events := s.events ++
          [Event.run (pipFullCmd ctx extras links d name) (w s.idx),
           Event.run (pipFullCmd ctx extras links d name ++ ["--pre"]) (w (s.idx + 1)),
           Event.record name],
        installed_packages := s.installed_packages ++ [name] } := by
    simp only [pipStep, hreq]
    rw [if_pos hargs]
    rw [if_neg (show ¬(runCmd w (pipFullCmd ctx extras links d name) s).1.returncode = 0 from h1)]
    rw [if_pos (show (!ctx.is_final_version && !d.pre_release) = true by
      rw [hfinal, hpre]; rfl)]
    rw [if_pos (show (runCmd w (pipFullCmd ctx extras links d name ++ ["--pre"])
      (runCmd w (pipFullCmd ctx extras links d name) s).2).1.returncode = 0 from h2)]
    simp [runCmd, recordInstalled, List.append_assoc]
  refine ⟨heq, ?_⟩
  rw [heq]
  simp [List.count_append]

/-- Witness for `c2_preview_retry_amended`: an `--upgrade` directive under a
preview interpreter, failing once then succeeding on the `--pre` retry. -/
theorem c2_preview_retry_amended_witness :
    pipStep ctxStd wFailThenOk [] [] { require := some "baz", upgrade := true } initSt =
      { initSt with
        idx := initSt.idx + 2,
        events := initSt.events ++
          [Event.run (pipFullCmd ctxStd [] [] { require := some "baz", upgrade := true } "baz")
            (wFailThenOk initSt.idx),
           Event.run (pipFullCmd ctxStd [] [] { require := some "baz", upgrade := true } "baz" ++
            ["--pre"]) (wFailThenOk (initSt.idx + 1)),
           Event.record "baz"],
        installed_packages := initSt.installed_packages ++ ["baz"] } ∧
    (pipStep ctxStd wFailThenOk [] [] { require := some "baz", upgrade := true }
      initSt).installed_packages.count "baz" =
      initSt.installed_packages.count "baz" + 1 :=
  c2_preview_retry_amended ctxStd wFailThenOk [] [] { require := some "baz", upgrade := true }
    "baz" initSt rfl (by decide) rfl rfl (by decide) (by decide)
